import Mathlib

/-!
Verification of the segregated-fit allocator in `malloclab-handout/mm.c`.

The heap is modelled as byte-addressable memory (`Mem`), with the 32-bit
little-endian word accessors `GET_WORD`/`PUT_WORD` translated from the C
macros.  All allocator functions (`mm_init`, `malloc`, `free`, `realloc`,
`calloc` and the seglist helpers) are translated line by line; the backing
store (`mem_sbrk` from `memlib.c`, which is not part of the handin sources)
is modelled from the spec's description of the Heap Backing Store.

Pointers are plain addresses (`Nat`), with `0` playing the role of `NULL`:
the C code never produces address 0 as a block pointer, since the first
usable block pointer lies beyond the seglist array and the prologue.
-/

namespace MM

/-- Byte-addressable memory: address ↦ stored byte.  Reads reduce modulo 256,
reflecting that each C object byte holds a value in `0..255`. -/
abbrev Mem := Nat → Nat

/-- `GET_WORD(p)`: read the 32-bit little-endian word at address `p`
(`*(WORD*)(p)`, mm.c line 119). -/
def GET_WORD (m : Mem) (p : Nat) : Nat :=
  m p % 256 + 256 * (m (p + 1) % 256) + 65536 * (m (p + 2) % 256) +
    16777216 * (m (p + 3) % 256)

/-- `PUT_WORD(p, val)`: store the 32-bit word `val` at `p` little-endian
(mm.c line 121).  The implicit C cast to `WORD` (`uint32_t`) is reflected by
storing only the low four bytes of `val`. -/
def PUT_WORD (m : Mem) (p v : Nat) : Mem := fun a =>
  if a = p then v % 256
  else if a = p + 1 then v / 256 % 256
  else if a = p + 2 then v / 65536 % 256
  else if a = p + 3 then v / 16777216 % 256
  else m a

/-- `ALIGN(p)`: `(((size_t)(p) + ((ALIGNMENT)-1)) & ~0x7)` (mm.c line 64),
with `size_t` arithmetic modulo `2^64`.  For a value `q < 2^64`,
`q & ~0x7 = q - q % 8` (clearing the three low bits). -/
def ALIGN (p : Nat) : Nat :=
  let q := (p + 7) % 2 ^ 64
  q - q % 8

/-- `GET_SIZE(p) = GET_WORD(p) & ~0x7` (mm.c line 124): clear the low three
bits of the (always `< 2^32`) header word. -/
def GET_SIZE (m : Mem) (p : Nat) : Nat :=
  GET_WORD m p - GET_WORD m p % 8

/-- `GET_BTAG(p) = GET_WORD(p) & 0x2` (mm.c line 126): bit 1 of the word. -/
def GET_BTAG (m : Mem) (p : Nat) : Nat :=
  GET_WORD m p / 2 % 2 * 2

/-- `GET_ALLOC(p) = GET_WORD(p) & 0x1` (mm.c line 128): bit 0 of the word. -/
def GET_ALLOC (m : Mem) (p : Nat) : Nat :=
  GET_WORD m p % 2

/-- `BTAG_KEEP = (WORD)(-1)` (mm.c line 131). -/
def BTAG_KEEP : Nat := 4294967295
/-- `BTAG_ALLOC = 0x2` (mm.c line 132). -/
def BTAG_ALLOC : Nat := 2
/-- `BTAG_FREE 0x0` (mm.c line 133). -/
def BTAG_FREE : Nat := 0

/-- `PUT_PACK(p, size, btag, alloc)` (mm.c lines 136-138).  Every call site
passes a `size` whose two low bits are clear, a `btag` in `{0, 2}` (or the
value of `GET_BTAG`, also in `{0, 2}`) and `alloc` in `{0, 1}`, so the C
bitwise-or `size | alloc | btag` coincides with addition. -/
def PUT_PACK (m : Mem) (p size btag alloc : Nat) : Mem :=
  if btag = BTAG_KEEP then PUT_WORD m p (size + alloc + GET_BTAG m p)
  else PUT_WORD m p (size + alloc + btag)

/-- `PUT_ALLOC_BTAG(p)`: `GET_WORD(p) |= 0x2` (mm.c line 139).  For a word
`w < 2^32`, `w | 0x2` is `w` when bit 1 is set and `w + 2` otherwise. -/
def PUT_ALLOC_BTAG (m : Mem) (p : Nat) : Mem :=
  PUT_WORD m p (if GET_WORD m p / 2 % 2 = 1 then GET_WORD m p else GET_WORD m p + 2)

/-- `PUT_FREE_BTAG(p)`: `GET_WORD(p) &= ~0x2` (mm.c line 140).  For a word
`w < 2^32`, `w & ~0x2` is `w - 2` when bit 1 is set and `w` otherwise. -/
def PUT_FREE_BTAG (m : Mem) (p : Nat) : Mem :=
  PUT_WORD m p (if GET_WORD m p / 2 % 2 = 1 then GET_WORD m p - 2 else GET_WORD m p)

/-- `GET_HEADER(bp) = (char*)bp - WORD_SIZE` (mm.c line 143). -/
def GET_HEADER (bp : Nat) : Nat := bp - 4

/-- `GET_FOOTER(bp) = (char*)bp + GET_SIZE(GET_HEADER(bp)) - DWORD_SIZE`
(mm.c lines 144-145). -/
def GET_FOOTER (m : Mem) (bp : Nat) : Nat := bp + GET_SIZE m (GET_HEADER bp) - 8

/-- `GET_NEXT_BLOCK(bp) = (char*)bp + GET_SIZE(GET_HEADER(bp))` (mm.c 148). -/
def GET_NEXT_BLOCK (m : Mem) (bp : Nat) : Nat := bp + GET_SIZE m (GET_HEADER bp)

/-- `GET_PREV_BLOCK(bp) = (char*)bp - GET_SIZE((char*)bp - DWORD_SIZE)`
(mm.c lines 149-150): step back over the previous block's footer. -/
def GET_PREV_BLOCK (m : Mem) (bp : Nat) : Nat := bp - GET_SIZE m (bp - 8)

/-- `GET_NEXT_FREE(bp)` (mm.c lines 153-157): the stored word is an offset
from `heap_begin`; offset `0` decodes to `NULL` (here `0`). -/
def GET_NEXT_FREE (hb : Nat) (m : Mem) (bp : Nat) : Nat :=
  let val := GET_WORD m bp
  if val = 0 then 0 else val + hb

/-- `GET_PREV_FREE(bp)` (mm.c lines 158-162): like `GET_NEXT_FREE` but the
offset word sits one `WORD` after `bp`. -/
def GET_PREV_FREE (hb : Nat) (m : Mem) (bp : Nat) : Nat :=
  let val := GET_WORD m (bp + 4)
  if val = 0 then 0 else val + hb

/-- `SET_NEXT_FREE(bp, val)` (mm.c lines 163-164): store
`(WORD)((char*)val - heap_begin)`, or `0` for `NULL`.  The pointers stored by
the allocator always satisfy `hb < val`, so natural subtraction agrees with
the C pointer difference; `PUT_WORD` performs the truncation to 32 bits. -/
def SET_NEXT_FREE (hb : Nat) (m : Mem) (bp v : Nat) : Mem :=
  PUT_WORD m bp (if v = 0 then 0 else v - hb)

/-- `SET_PREV_FREE(bp, val)` (mm.c lines 165-167). -/
def SET_PREV_FREE (hb : Nat) (m : Mem) (bp v : Nat) : Mem :=
  PUT_WORD m (bp + 4) (if v = 0 then 0 else v - hb)

/-- Allocator state: the byte memory, the 17 seglist heads, the globals
`heap_begin` and the backing store's current break and capacity.  The 17
seglist head slots live at the very start of the heap (`[0, 136)`) and are
accessed by the C code exclusively through `seglist[i]`; they are modelled by
the dedicated `seglist` field (`0` = `NULL`). -/
structure Heap where
  mem : Mem
  seglist : Nat → Nat
  heap_begin : Nat
  brk : Nat
  maxHeap : Nat

/-- Modelled from the spec: the Heap Backing Store collaborator (`mem_sbrk`
of `memlib.c`, which is not under src/): "a backing store exposing
`grow(extra_bytes) -> Result<base_ptr, Error>` (fails if the platform cannot
extend the region)".  The heap occupies the byte range `[0, brk)`; a
successful grow returns the old break (the start of the fresh region), a
failed grow (capacity exhausted) returns an error and leaves the state
unchanged.  `none` plays the role of `ERRPTR`. -/
def mem_sbrk (h : Heap) (incr : Nat) : Heap × Option Nat :=
  if h.brk + incr ≤ h.maxHeap then ({ h with brk := h.brk + incr }, some h.brk)
  else (h, none)

/-- `seglist_get_index` (mm.c lines 411-448): the power-of-two range bucket
of a block size.  The GNU case ranges `0 ... 32`, `33 ... 64`, … are
inclusive on both ends. -/
def seglist_get_index (size : Nat) : Nat :=
  if size ≤ 32 then 0
  else if size ≤ 64 then 1
  else if size ≤ 128 then 2
  else if size ≤ 256 then 3
  else if size ≤ 512 then 4
  else if size ≤ 1024 then 5
  else if size ≤ 2048 then 6
  else if size ≤ 4096 then 7
  else if size ≤ 8192 then 8
  else if size ≤ 16384 then 9
  else if size ≤ 32768 then 10
  else if size ≤ 65536 then 11
  else if size ≤ 131072 then 12
  else if size ≤ 262144 then 13
  else if size ≤ 524288 then 14
  else if size ≤ 1048576 then 15
  else 16

/-- `seglist_insert` (mm.c lines 456-465): push `fp` at the head of its
class's list (LIFO). -/
def seglist_insert (h : Heap) (fp size : Nat) : Heap :=
  let index := seglist_get_index size
  let insert_pt := h.seglist index
  let m1 := if insert_pt ≠ 0 then SET_PREV_FREE h.heap_begin h.mem insert_pt fp
            else h.mem
  let m2 := SET_NEXT_FREE h.heap_begin m1 fp insert_pt
  let m3 := SET_PREV_FREE h.heap_begin m2 fp 0
  { h with mem := m3, seglist := fun i => if i = index then fp else h.seglist i }

/-- `seglist_remove` (mm.c lines 473-485): unlink `fp` from its class. -/
def seglist_remove (h : Heap) (fp size : Nat) : Heap :=
  let index := seglist_get_index size
  let next := GET_NEXT_FREE h.heap_begin h.mem fp
  let prev := GET_PREV_FREE h.heap_begin h.mem fp
  let m1 := if prev ≠ 0 then SET_NEXT_FREE h.heap_begin h.mem prev next else h.mem
  let sl1 := if prev ≠ 0 then h.seglist
             else fun i => if i = index then next else h.seglist i
  let m2 := if next ≠ 0 then SET_PREV_FREE h.heap_begin m1 next prev else m1
  { h with mem := m2, seglist := sl1 }

/-- The `while (fp)` traversal of `seglist_find` (mm.c lines 497-500).  The
C loop terminates because free lists are acyclic; the fuel provided by
`seglist_find` strictly exceeds the length of any acyclic list living in a
heap of `brk` bytes. -/
def seglist_find_go (hb : Nat) (m : Mem) (size : Nat) : Nat → Nat → Nat
  | 0, _ => 0
  | _ + 1, 0 => 0
  | fuel + 1, fp =>
    if size ≤ GET_SIZE m (GET_HEADER fp) then fp
    else seglist_find_go hb m size fuel (GET_NEXT_FREE hb m fp)

/-- `seglist_find` (mm.c lines 494-502): first-fit scan of one class.
`SEGLIST_AUTO = (size_t)-1` selects the class from `size`. -/
def seglist_find (h : Heap) (index size : Nat) : Nat :=
  let index := if index = 2 ^ 64 - 1 then seglist_get_index size else index
  seglist_find_go h.heap_begin h.mem size (h.brk + 1) (h.seglist index)

/-- The `for` loop of `find_fit` (mm.c lines 374-376), escalating through the
classes; a fuel of 17 covers every iteration of `index < SEGLIST_SIZE`. -/
def find_fit_go (h : Heap) (size : Nat) : Nat → Nat → Nat
  | 0, _ => 0
  | fuel + 1, index =>
    if index < 17 then
      let fp := seglist_find h index size
      if fp = 0 then find_fit_go h size fuel (index + 1) else fp
    else 0

/-- `find_fit` (mm.c lines 371-378). -/
def find_fit (h : Heap) (size : Nat) : Nat :=
  find_fit_go h size 17 (seglist_get_index size)

/-- `place` (mm.c lines 386-401): carve `alloc_size` out of the free block at
`ptr`, splitting when the remainder `diff` (a `ptrdiff_t`, hence `Int`) is at
least `MIN_BLOCK_SIZE = 16`. -/
def place (h : Heap) (ptr alloc_size : Nat) : Heap :=
  let free_size := GET_SIZE h.mem (GET_HEADER ptr)
  let h1 := seglist_remove h ptr free_size
  let diff : Int := (free_size : Int) - (alloc_size : Int)
  if 16 ≤ diff then
    let m1 := PUT_PACK h1.mem (GET_HEADER ptr) alloc_size BTAG_KEEP 1
    let bp := GET_NEXT_BLOCK m1 ptr
    let m2 := PUT_PACK m1 (GET_HEADER bp) diff.toNat BTAG_ALLOC 0
    let m3 := PUT_PACK m2 (GET_FOOTER m2 bp) diff.toNat BTAG_ALLOC 0
    seglist_insert { h1 with mem := m3 } bp diff.toNat
  else
    let m1 := PUT_PACK h1.mem (GET_HEADER ptr) free_size BTAG_KEEP 1
    let m2 := PUT_ALLOC_BTAG m1 (GET_HEADER (GET_NEXT_BLOCK m1 ptr))
    { h1 with mem := m2 }

/-- `coalesce` (mm.c lines 330-363): merge the free block `bp` with its free
physical neighbours.  `prev_alloc` is read from the boundary tag of `bp`'s
own header, `next_alloc` from the next block's header; each memory read is
performed against the memory state current at that point of the C code.
Returns the surviving block pointer together with the new state. -/
def coalesce (h : Heap) (bp : Nat) : Heap × Nat :=
  let prev_alloc : Bool := GET_BTAG h.mem (GET_HEADER bp) == BTAG_ALLOC
  let next_alloc : Bool := GET_ALLOC h.mem (GET_HEADER (GET_NEXT_BLOCK h.mem bp)) != 0
  let size := GET_SIZE h.mem (GET_HEADER bp)
  let step : Heap × Nat × Nat :=
    if prev_alloc && next_alloc then
      ({ h with mem := PUT_PACK h.mem (GET_FOOTER h.mem bp) size
                        (GET_BTAG h.mem (GET_HEADER bp)) 0 }, bp, size)
    else if prev_alloc && !next_alloc then
      let next_size := GET_SIZE h.mem (GET_HEADER (GET_NEXT_BLOCK h.mem bp))
      let size1 := size + next_size
      let hA := seglist_remove h (GET_NEXT_BLOCK h.mem bp) next_size
      let mB := PUT_PACK hA.mem (GET_HEADER bp) size1 BTAG_KEEP 0
      let mC := PUT_PACK mB (GET_FOOTER mB bp) size1 (GET_BTAG mB (GET_HEADER bp)) 0
      ({ hA with mem := mC }, bp, size1)
    else if !prev_alloc && next_alloc then
      let prev_size := GET_SIZE h.mem (GET_HEADER (GET_PREV_BLOCK h.mem bp))
      let size1 := size + prev_size
      let hA := seglist_remove h (GET_PREV_BLOCK h.mem bp) prev_size
      let bp1 := GET_PREV_BLOCK hA.mem bp
      let mB := PUT_PACK hA.mem (GET_HEADER bp1) size1 BTAG_KEEP 0
      let mC := PUT_PACK mB (GET_FOOTER mB bp1) size1 (GET_BTAG mB (GET_HEADER bp1)) 0
      ({ hA with mem := mC }, bp1, size1)
    else
      let next_size := GET_SIZE h.mem (GET_HEADER (GET_NEXT_BLOCK h.mem bp))
      let prev_size := GET_SIZE h.mem (GET_HEADER (GET_PREV_BLOCK h.mem bp))
      let size1 := size + next_size + prev_size
      let hA := seglist_remove h (GET_NEXT_BLOCK h.mem bp) next_size
      let hB := seglist_remove hA (GET_PREV_BLOCK hA.mem bp) prev_size
      let bp1 := GET_PREV_BLOCK hB.mem bp
      let mC := PUT_PACK hB.mem (GET_HEADER bp1) size1 BTAG_KEEP 0
      let mD := PUT_PACK mC (GET_FOOTER mC bp1) size1 (GET_BTAG mC (GET_HEADER bp1)) 0
      ({ hB with mem := mD }, bp1, size1)
  (seglist_insert step.1 step.2.1 step.2.2, step.2.1)

/-- `extend_heap` (mm.c lines 311-322): grow the heap by `words` words
(rounded up to an even word count, at least `MIN_BLOCK_SIZE` bytes), lay a
fresh free block over the old epilogue, write a new epilogue, and coalesce.
Returns `0` (`NULL`) when the backing store is exhausted. -/
def extend_heap (h : Heap) (words : Nat) : Heap × Nat :=
  let ext0 := (if words % 2 = 1 then words + 1 else words) * 4
  let ext_size := if ext0 < 16 then 16 else ext0
  match mem_sbrk h ext_size with
  | (h1, none) => (h1, 0)
  | (h1, some bp) =>
    let m1 := PUT_PACK h1.mem (GET_HEADER bp) ext_size BTAG_KEEP 0
    let m2 := PUT_PACK m1 (GET_FOOTER m1 bp) ext_size (GET_BTAG m1 (GET_HEADER bp)) 0
    let m3 := PUT_PACK m2 (GET_HEADER (GET_NEXT_BLOCK m2 bp)) 4 BTAG_FREE 1
    let m4 := PUT_FREE_BTAG m3 (GET_HEADER (GET_NEXT_BLOCK m3 bp))
    coalesce { h1 with mem := m4 } bp

/-- `mm_init` (mm.c lines 200-220): carve out the seglist array, the
alignment padding, the prologue and the epilogue, then extend the heap by
`INIT_SIZE = 1 << 6` words.  Returns `false` for the C return value `-1`. -/
def mm_init (mem0 : Mem) (maxHeap : Nat) : Heap × Bool :=
  let h0 : Heap := { mem := mem0, seglist := fun _ => 0, heap_begin := 0,
                     brk := 0, maxHeap := maxHeap }
  match mem_sbrk h0 (17 * 8 + 4 * 4) with
  | (h1, none) => (h1, false)
  | (h1, some base) =>
    let hb0 := base + 17 * 8
    let m1 := PUT_WORD h1.mem hb0 0
    let m2 := PUT_PACK m1 (hb0 + 4) 8 BTAG_FREE 1
    let m3 := PUT_PACK m2 (hb0 + 8) 8 BTAG_FREE 1
    let m4 := PUT_PACK m3 (hb0 + 12) 0 BTAG_ALLOC 1
    let h2 := { h1 with mem := m4, seglist := fun _ => 0, heap_begin := hb0 + 8 }
    match extend_heap h2 64 with
    | (h3, 0) => (h3, false)
    | (h3, _) => (h3, true)

/-- The local `allocated_size` computation of `malloc` (mm.c lines 229-234):
requests of at most `MIN_PAYLOAD_SIZE = 12` bytes become the minimum block
size 16; larger requests become `ALIGN(WORD_SIZE + size)`. -/
def malloc_allocated_size (size : Nat) : Nat :=
  if size ≤ 12 then 16 else ALIGN (4 + size)

/-- `malloc` (mm.c lines 228-246).  Returns the new state and the block
pointer (`0` = `NULL`). -/
def malloc (h : Heap) (size : Nat) : Heap × Nat :=
  if size = 0 then (h, 0)
  else
    let allocated_size := malloc_allocated_size size
    let bp := find_fit h allocated_size
    if bp ≠ 0 then (place h bp allocated_size, bp)
    else
      let ext_size := if allocated_size > 4096 then allocated_size else 4096
      match extend_heap h (ext_size / 4) with
      | (h1, 0) => (h1, 0)
      | (h1, bp1) => (place h1 bp1 allocated_size, bp1)

/-- `free` (mm.c lines 253-261): no-op on `NULL`; otherwise clear the alloc
bits of header and footer, clear the boundary tag of the next block's
header, and coalesce. -/
def free (h : Heap) (ptr : Nat) : Heap :=
  if ptr = 0 then h
  else
    let size := GET_SIZE h.mem (GET_HEADER ptr)
    let m1 := PUT_PACK h.mem (GET_HEADER ptr) size BTAG_KEEP 0
    let m2 := PUT_PACK m1 (GET_FOOTER m1 ptr) size BTAG_KEEP 0
    let next_block := GET_NEXT_BLOCK m2 ptr
    let m3 := PUT_FREE_BTAG m2 (GET_HEADER next_block)
    (coalesce { h with mem := m3 } ptr).1

/-- C `memcpy` for the non-overlapping regions the allocator copies between:
every destination byte receives the corresponding source byte of the
pre-call memory. -/
def memcpy (m : Mem) (dst src n : Nat) : Mem := fun a =>
  if dst ≤ a ∧ a < dst + n then m (src + (a - dst)) else m a

/-- C `memset`. -/
def memset (m : Mem) (p v n : Nat) : Mem := fun a =>
  if p ≤ a ∧ a < p + n then v % 256 else m a

/-- The copy length `MIN(size, GET_SIZE(GET_HEADER(oldptr)))` used by
`realloc` (mm.c line 281).  Note that `GET_SIZE` is the full block size,
including the 4-byte header. -/
def realloc_copy_len (m : Mem) (oldptr size : Nat) : Nat :=
  min size (GET_SIZE m (GET_HEADER oldptr))

/-- `realloc` (mm.c lines 271-284). -/
def realloc (h : Heap) (oldptr size : Nat) : Heap × Nat :=
  if size = 0 then (free h oldptr, 0)
  else if oldptr = 0 then malloc h size
  else
    match malloc h size with
    | (h1, 0) => (h1, 0)
    | (h1, newptr) =>
      let m1 := memcpy h1.mem newptr oldptr (realloc_copy_len h1.mem oldptr size)
      (free { h1 with mem := m1 } oldptr, newptr)

/-- `calloc` (mm.c lines 293-299).  `size * nmemb` is `size_t` arithmetic,
hence reduces modulo `2^64`; the original performs no overflow check. -/
def calloc (h : Heap) (nmemb size : Nat) : Heap × Nat :=
  let total_size := size * nmemb % 2 ^ 64
  match malloc h total_size with
  | (h1, 0) => (h1, 0)
  | (h1, bp) => ({ h1 with mem := memset h1.mem bp 0 total_size }, bp)

/-- All-zero initial memory handed to `mm_init` in the concrete scenarios. -/
def zeroMem : Mem := fun _ => 0

/-- The heap state right after a successful `mm_init` on a backing store of
100000 bytes. -/
def hInit : Heap := (mm_init zeroMem 100000).1

/-! ## Basic facts about the word-level memory -/

theorem GET_WORD_lt (m : Mem) (p : Nat) : GET_WORD m p < 2 ^ 32 := by
  unfold GET_WORD
  have h0 : m p % 256 < 256 := Nat.mod_lt _ (by norm_num)
  have h1 : m (p + 1) % 256 < 256 := Nat.mod_lt _ (by norm_num)
  have h2 : m (p + 2) % 256 < 256 := Nat.mod_lt _ (by norm_num)
  have h3 : m (p + 3) % 256 < 256 := Nat.mod_lt _ (by norm_num)
  omega

theorem PUT_WORD_outside (m : Mem) (p v a : Nat) (h : a < p ∨ p + 4 ≤ a) :
    PUT_WORD m p v a = m a := by
  unfold PUT_WORD
  rw [if_neg (by omega), if_neg (by omega), if_neg (by omega), if_neg (by omega)]

/-- A word read at `q` is unaffected by a word write at `p` when the two
four-byte cells are disjoint. -/
theorem GET_WORD_PUT_WORD_disj (m : Mem) (p v q : Nat) (h : q + 4 ≤ p ∨ p + 4 ≤ q) :
    GET_WORD (PUT_WORD m p v) q = GET_WORD m q := by
  unfold GET_WORD
  rw [PUT_WORD_outside m p v q (by omega), PUT_WORD_outside m p v (q + 1) (by omega),
    PUT_WORD_outside m p v (q + 2) (by omega), PUT_WORD_outside m p v (q + 3) (by omega)]

/-- Reading back a word just written returns it truncated to 32 bits. -/
theorem GET_WORD_PUT_WORD_self (m : Mem) (p v : Nat) :
    GET_WORD (PUT_WORD m p v) p = v % 2 ^ 32 := by
  unfold GET_WORD PUT_WORD
  rw [if_pos rfl, if_neg (by omega), if_pos rfl, if_neg (by omega), if_neg (by omega),
    if_pos rfl, if_neg (by omega), if_neg (by omega), if_neg (by omega), if_pos rfl]
  omega

theorem GET_BTAG_cases (m : Mem) (p : Nat) : GET_BTAG m p = 0 ∨ GET_BTAG m p = 2 := by
  unfold GET_BTAG; omega

theorem GET_ALLOC_le_one (m : Mem) (p : Nat) : GET_ALLOC m p ≤ 1 := by
  unfold GET_ALLOC; omega

theorem GET_SIZE_mod_eight (m : Mem) (p : Nat) : GET_SIZE m p % 8 = 0 := by
  unfold GET_SIZE; omega

theorem GET_SIZE_lt (m : Mem) (p : Nat) : GET_SIZE m p < 2 ^ 32 := by
  have := GET_WORD_lt m p
  unfold GET_SIZE; omega

/-- Extracting the size field from a word holding `size | alloc | btag`. -/
theorem GET_SIZE_of_word (m : Mem) (p s a b : Nat) (hw : GET_WORD m p = s + a + b)
    (h8 : s % 8 = 0) (ha : a ≤ 1) (hb : b = 0 ∨ b = 2) : GET_SIZE m p = s := by
  unfold GET_SIZE; rw [hw]; omega

theorem GET_ALLOC_of_word (m : Mem) (p s a b : Nat) (hw : GET_WORD m p = s + a + b)
    (h8 : s % 8 = 0) (ha : a ≤ 1) (hb : b = 0 ∨ b = 2) : GET_ALLOC m p = a := by
  unfold GET_ALLOC; rw [hw]; omega

theorem GET_BTAG_of_word (m : Mem) (p s a b : Nat) (hw : GET_WORD m p = s + a + b)
    (h8 : s % 8 = 0) (ha : a ≤ 1) (hb : b = 0 ∨ b = 2) : GET_BTAG m p = b := by
  unfold GET_BTAG; rw [hw]; omega

theorem PUT_PACK_explicit (m : Mem) (p s b a : Nat) (h : b ≠ BTAG_KEEP) :
    PUT_PACK m p s b a = PUT_WORD m p (s + a + b) := by
  unfold PUT_PACK; rw [if_neg h]

theorem PUT_PACK_keep (m : Mem) (p s a : Nat) :
    PUT_PACK m p s BTAG_KEEP a = PUT_WORD m p (s + a + GET_BTAG m p) := by
  unfold PUT_PACK; rw [if_pos rfl]

theorem PUT_FREE_BTAG_eq_put (m : Mem) (p : Nat) :
    PUT_FREE_BTAG m p =
      PUT_WORD m p (if GET_WORD m p / 2 % 2 = 1 then GET_WORD m p - 2 else GET_WORD m p) :=
  rfl

theorem PUT_ALLOC_BTAG_eq_put (m : Mem) (p : Nat) :
    PUT_ALLOC_BTAG m p =
      PUT_WORD m p (if GET_WORD m p / 2 % 2 = 1 then GET_WORD m p else GET_WORD m p + 2) :=
  rfl

/-- `PUT_FREE_BTAG` clears only bit 1: the size field is untouched. -/
theorem GET_SIZE_PUT_FREE_BTAG_self (m : Mem) (p : Nat) :
    GET_SIZE (PUT_FREE_BTAG m p) p = GET_SIZE m p := by
  have hlt := GET_WORD_lt m p
  unfold GET_SIZE PUT_FREE_BTAG
  rw [GET_WORD_PUT_WORD_self]
  split <;> omega

/-- `PUT_FREE_BTAG` clears only bit 1: the alloc bit is untouched. -/
theorem GET_ALLOC_PUT_FREE_BTAG_self (m : Mem) (p : Nat) :
    GET_ALLOC (PUT_FREE_BTAG m p) p = GET_ALLOC m p := by
  have hlt := GET_WORD_lt m p
  unfold GET_ALLOC PUT_FREE_BTAG
  rw [GET_WORD_PUT_WORD_self]
  split <;> omega

/-- `PUT_ALLOC_BTAG` sets only bit 1: the size field is untouched. -/
theorem GET_SIZE_PUT_ALLOC_BTAG_self (m : Mem) (p : Nat) :
    GET_SIZE (PUT_ALLOC_BTAG m p) p = GET_SIZE m p := by
  have hlt := GET_WORD_lt m p
  unfold GET_SIZE PUT_ALLOC_BTAG
  rw [GET_WORD_PUT_WORD_self]
  split <;> omega

/-- `PUT_ALLOC_BTAG` sets only bit 1: the alloc bit is untouched. -/
theorem GET_ALLOC_PUT_ALLOC_BTAG_self (m : Mem) (p : Nat) :
    GET_ALLOC (PUT_ALLOC_BTAG m p) p = GET_ALLOC m p := by
  have hlt := GET_WORD_lt m p
  unfold GET_ALLOC PUT_ALLOC_BTAG
  rw [GET_WORD_PUT_WORD_self]
  split <;> omega

/-- After `PUT_ALLOC_BTAG` the boundary tag reads as `BTAG_ALLOC`. -/
theorem GET_BTAG_PUT_ALLOC_BTAG_self (m : Mem) (p : Nat) :
    GET_BTAG (PUT_ALLOC_BTAG m p) p = 2 := by
  have hlt := GET_WORD_lt m p
  unfold GET_BTAG PUT_ALLOC_BTAG
  rw [GET_WORD_PUT_WORD_self]
  split <;> omega

/-- After `PUT_FREE_BTAG` the boundary tag reads as `BTAG_FREE`. -/
theorem GET_BTAG_PUT_FREE_BTAG_self (m : Mem) (p : Nat) :
    GET_BTAG (PUT_FREE_BTAG m p) p = 0 := by
  have hlt := GET_WORD_lt m p
  unfold GET_BTAG PUT_FREE_BTAG
  rw [GET_WORD_PUT_WORD_self]
  split <;> omega

/-! ## State projections preserved by the allocator operations -/

theorem seglist_insert_brk (h : Heap) (fp s : Nat) : (seglist_insert h fp s).brk = h.brk := rfl

theorem seglist_remove_brk (h : Heap) (fp s : Nat) : (seglist_remove h fp s).brk = h.brk := rfl

theorem seglist_insert_heap_begin (h : Heap) (fp s : Nat) :
    (seglist_insert h fp s).heap_begin = h.heap_begin := rfl

theorem seglist_remove_heap_begin (h : Heap) (fp s : Nat) :
    (seglist_remove h fp s).heap_begin = h.heap_begin := rfl

theorem coalesce_brk (h : Heap) (bp : Nat) : (coalesce h bp).1.brk = h.brk := by
  simp only [coalesce]
  split
  · rfl
  · split
    · rfl
    · split <;> rfl

theorem place_brk (h : Heap) (p a : Nat) : (place h p a).brk = h.brk := by
  simp only [place]
  split <;> rfl

theorem free_brk (h : Heap) (p : Nat) : (free h p).brk = h.brk := by
  unfold free
  split
  · rfl
  · rw [coalesce_brk]

theorem place_heap_begin (h : Heap) (p a : Nat) : (place h p a).heap_begin = h.heap_begin := by
  simp only [place]
  split <;> rfl

theorem place_maxHeap (h : Heap) (p a : Nat) : (place h p a).maxHeap = h.maxHeap := by
  simp only [place]
  split <;> rfl

/-! ## C9: `malloc(0)` and `free(NULL)` -/

/-- C9: `malloc(0)` returns `NULL` with the heap and free lists unchanged, and
`free(NULL)` is a no-op leaving the state unchanged. -/
theorem c9_malloc_zero_free_null (h : Heap) : malloc h 0 = (h, 0) ∧ free h 0 = h :=
  ⟨rfl, rfl⟩

/-! ## C6: the internal block size computed by `malloc` -/

/-- C6 counterexample: for `size = 2^64 - 4` the `size_t` computation
`ALIGN(WORD_SIZE + size)` wraps around to `0`, so the internal block size is
not "header size plus `size`, rounded up to the nearest multiple of 8"
(which would be `2^64`). -/
theorem c6_counterexample :
    malloc_allocated_size 18446744073709551612 ≠
      (4 + 18446744073709551612 + 7) / 8 * 8 := by
  decide

/-- C6 (amended): for `size` up to `2^64 - 12` the internal block size is 16
when `size ≤ 12` (the minimum payload) and `header + size` rounded up to the
nearest multiple of 8 otherwise; beyond that bound the `size_t` computation
wraps modulo `2^64`. -/
theorem c6_malloc_internal_size (size : Nat) (h0 : 0 < size) (h1 : size + 12 ≤ 2 ^ 64) :
    malloc_allocated_size size = if size ≤ 12 then 16 else (4 + size + 7) / 8 * 8 := by
  unfold malloc_allocated_size ALIGN
  split
  · rfl
  · simp only [show (4 + size + 7) % 2 ^ 64 = 4 + size + 7 from Nat.mod_eq_of_lt (by omega)]
    omega

theorem c6_malloc_internal_size_witness :
    malloc_allocated_size 16 = if 16 ≤ 12 then 16 else (4 + 16 + 7) / 8 * 8 :=
  c6_malloc_internal_size 16 (by decide) (by decide)

/-! ## C10: round-trip of the offset-encoded free-list links -/

/-- C10: encoding a pointer `p` with a positive offset from `heap_begin` that
fits in 32 bits and decoding it returns `p`; `NULL` encodes as offset `0` and
decodes back to `NULL`, for both the next-link and the prev-link pair. -/
theorem c10_free_link_roundtrip (hb : Nat) (m : Mem) (bp p : Nat) (h1 : hb < p)
    (h2 : p - hb < 2 ^ 32) :
    GET_NEXT_FREE hb (SET_NEXT_FREE hb m bp p) bp = p ∧
    GET_PREV_FREE hb (SET_PREV_FREE hb m bp p) bp = p ∧
    GET_NEXT_FREE hb (SET_NEXT_FREE hb m bp 0) bp = 0 ∧
    GET_PREV_FREE hb (SET_PREV_FREE hb m bp 0) bp = 0 := by
  have hp : p ≠ 0 := by omega
  have hd : p - hb ≠ 0 := by omega
  refine ⟨?_, ?_, ?_, ?_⟩
  · simp only [GET_NEXT_FREE, SET_NEXT_FREE, if_neg hp, GET_WORD_PUT_WORD_self,
      Nat.mod_eq_of_lt h2, if_neg hd]
    omega
  · simp only [GET_PREV_FREE, SET_PREV_FREE, if_neg hp, GET_WORD_PUT_WORD_self,
      Nat.mod_eq_of_lt h2, if_neg hd]
    omega
  · simp only [GET_NEXT_FREE, SET_NEXT_FREE, if_pos rfl, GET_WORD_PUT_WORD_self]
    norm_num
  · simp only [GET_PREV_FREE, SET_PREV_FREE, if_pos rfl, GET_WORD_PUT_WORD_self]
    norm_num

theorem c10_free_link_roundtrip_witness :
    GET_NEXT_FREE 144 (SET_NEXT_FREE 144 zeroMem 152 152) 152 = 152 ∧
    GET_PREV_FREE 144 (SET_PREV_FREE 144 zeroMem 152 152) 152 = 152 ∧
    GET_NEXT_FREE 144 (SET_NEXT_FREE 144 zeroMem 152 0) 152 = 0 ∧
    GET_PREV_FREE 144 (SET_PREV_FREE 144 zeroMem 152 0) 152 = 0 :=
  c10_free_link_roundtrip 144 zeroMem 152 152 (by decide) (by decide)

/-! ## C3: `calloc` and multiplication overflow -/

/-- C3: the code computes `size * nmemb` in `size_t` with no overflow check.
With `nmemb = 2^63 + 1` and `size = 2` the product wraps to 2, and `calloc`
returns a non-null pointer to a 16-byte block (nowhere near `nmemb * size`
bytes) instead of signalling an error with a null result as the claim
requires.  The non-overflowing part of the claim does hold: `calloc(10, 4)`
returns a 40-byte zero-filled region (spec scenario C). -/
theorem c3_calloc_overflow_wraps :
    2 * (2 ^ 63 + 1) % 2 ^ 64 = 2 ∧ (calloc hInit (2 ^ 63 + 1) 2).2 = 152 ∧
    (152 : Nat) ≠ 0 ∧
    GET_SIZE (calloc hInit (2 ^ 63 + 1) 2).1.mem (GET_HEADER 152) = 16 ∧
    (calloc hInit 10 4).2 = 152 ∧
    ((List.range 40).all fun i => (calloc hInit 10 4).1.mem (152 + i) == 0) = true :=
  ⟨by decide, by decide, by decide, by decide, by decide, by decide⟩

/-! ## C8: LIFO reuse scenario -/

/-- C8: starting from `init()`, `malloc(16)` twice returns 152 then 176;
after freeing the first pointer, a third `malloc(16)` returns 152 again
(LIFO reuse of the freed block, pushed at the head of its class). -/
theorem c8_lifo_reuse_scenario :
    (mm_init zeroMem 100000).2 = true ∧
    (malloc hInit 16).2 = 152 ∧
    (malloc (malloc hInit 16).1 16).2 = 176 ∧
    (malloc (free (malloc (malloc hInit 16).1 16).1 152) 16).2 = 152 :=
  ⟨by decide, by decide, by decide, by decide⟩

/-! ## C2: the number of bytes copied by `realloc` -/

/-- C2 counterexample: after `malloc(8)` the block at 152 has block size 16,
hence payload `16 - 4 = 12`.  At `realloc(152, 14)` the code's copy length
(`MIN(size, GET_SIZE(header))`, evaluated in the state where `realloc`
invokes `memcpy`) is `min 14 16 = 14`, not `min(size, old_payload_size) =
min 14 12 = 12` as the claim states. -/
theorem c2_counterexample :
    (malloc hInit 8).2 = 152 ∧
    GET_SIZE (malloc hInit 8).1.mem (GET_HEADER 152) = 16 ∧
    realloc_copy_len (malloc (malloc hInit 8).1 14).1.mem 152 14 ≠ min 14 (16 - 4) :=
  ⟨by decide, by decide, by decide⟩

/-- C2 (amended): for `size > 0` and non-null `oldptr`, when the inner
`malloc` succeeds `realloc` allocates the new block via `malloc`, copies
exactly `min(size, old_block_size)` bytes — where `old_block_size` is the
full block size `GET_SIZE(GET_HEADER(oldptr))`, i.e. the old payload plus
the 4-byte header — frees the old block, and returns the new pointer. -/
theorem c2_realloc_copies_block_size (h : Heap) (oldptr size : Nat) (h1 : Heap) (np : Nat)
    (hs : 0 < size) (ho : oldptr ≠ 0) (hm : malloc h size = (h1, np)) (hnp : np ≠ 0) :
    realloc h oldptr size =
      (free { h1 with
          mem := memcpy h1.mem np oldptr (min size (GET_SIZE h1.mem (GET_HEADER oldptr))) }
        oldptr, np) := by
  unfold realloc
  rw [if_neg (by omega : ¬size = 0), if_neg ho, hm]
  cases np with
  | zero => exact absurd rfl hnp
  | succ n => simp [realloc_copy_len]

theorem c2_realloc_copies_block_size_witness :
    realloc (malloc hInit 8).1 152 14 =
      (free { (malloc (malloc hInit 8).1 14).1 with
          mem := memcpy (malloc (malloc hInit 8).1 14).1.mem (malloc (malloc hInit 8).1 14).2 152 (min 14 (GET_SIZE (malloc (malloc hInit 8).1 14).1.mem (GET_HEADER 152))) }
        152, (malloc (malloc hInit 8).1 14).2) :=
  c2_realloc_copies_block_size (malloc hInit 8).1 152 14 (malloc (malloc hInit 8).1 14).1
    (malloc (malloc hInit 8).1 14).2 (by decide) (by decide) rfl (by decide)

/-! ## C5: heap extension on a `find_fit` miss, and out-of-memory behaviour -/

/-- `coalesce` in the case previous-allocated/next-allocated (mm.c line
335): only the footer is (re)written and the block is inserted. -/
theorem coalesce_case1 (h : Heap) (bp : Nat)
    (hprev : GET_BTAG h.mem (GET_HEADER bp) = 2)
    (hnext : GET_ALLOC h.mem (GET_HEADER (GET_NEXT_BLOCK h.mem bp)) = 1) :
    coalesce h bp =
      (seglist_insert
        { h with
          mem := PUT_PACK h.mem (GET_FOOTER h.mem bp) (GET_SIZE h.mem (GET_HEADER bp)) (GET_BTAG h.mem (GET_HEADER bp)) 0 }
        bp (GET_SIZE h.mem (GET_HEADER bp)), bp) := by
  unfold coalesce
  rw [hprev, hnext]
  rfl

/-- `coalesce` in the case previous-free/next-allocated (mm.c line 343):
merge with the preceding block. -/
theorem coalesce_case3 (h : Heap) (bp : Nat)
    (hprev : GET_BTAG h.mem (GET_HEADER bp) = 0)
    (hnext : GET_ALLOC h.mem (GET_HEADER (GET_NEXT_BLOCK h.mem bp)) = 1) :
    coalesce h bp =
      (let prev_size := GET_SIZE h.mem (GET_HEADER (GET_PREV_BLOCK h.mem bp))
       let size1 := GET_SIZE h.mem (GET_HEADER bp) + prev_size
       let hA := seglist_remove h (GET_PREV_BLOCK h.mem bp) prev_size
       let bp1 := GET_PREV_BLOCK hA.mem bp
       let mB := PUT_PACK hA.mem (GET_HEADER bp1) size1 BTAG_KEEP 0
       let mC := PUT_PACK mB (GET_FOOTER mB bp1) size1 (GET_BTAG mB (GET_HEADER bp1)) 0
       (seglist_insert { hA with mem := mC } bp1 size1, bp1)) := by
  unfold coalesce
  rw [hprev, hnext]
  rfl


/-- `extend_heap` unfolded on the success path of `mem_sbrk`. -/
theorem extend_heap_unfold (h : Heap) (w E : Nat)
    (hE : (if w % 2 = 1 then w + 1 else w) * 4 = E)
    (h16 : ¬ E < 16) (hcap : h.brk + E ≤ h.maxHeap) :
    extend_heap h w =
      coalesce
        { h with
           brk := h.brk + E,
           mem := PUT_FREE_BTAG (PUT_PACK (PUT_PACK (PUT_PACK h.mem (GET_HEADER h.brk) E BTAG_KEEP 0) (GET_FOOTER (PUT_PACK h.mem (GET_HEADER h.brk) E BTAG_KEEP 0) h.brk) E (GET_BTAG (PUT_PACK h.mem (GET_HEADER h.brk) E BTAG_KEEP 0) (GET_HEADER h.brk)) 0) (GET_HEADER (GET_NEXT_BLOCK (PUT_PACK (PUT_PACK h.mem (GET_HEADER h.brk) E BTAG_KEEP 0) (GET_FOOTER (PUT_PACK h.mem (GET_HEADER h.brk) E BTAG_KEEP 0) h.brk) E (GET_BTAG (PUT_PACK h.mem (GET_HEADER h.brk) E BTAG_KEEP 0) (GET_HEADER h.brk)) 0) h.brk)) 4 BTAG_FREE 1) (GET_HEADER (GET_NEXT_BLOCK (PUT_PACK (PUT_PACK (PUT_PACK h.mem (GET_HEADER h.brk) E BTAG_KEEP 0) (GET_FOOTER (PUT_PACK h.mem (GET_HEADER h.brk) E BTAG_KEEP 0) h.brk) E (GET_BTAG (PUT_PACK h.mem (GET_HEADER h.brk) E BTAG_KEEP 0) (GET_HEADER h.brk)) 0) (GET_HEADER (GET_NEXT_BLOCK (PUT_PACK (PUT_PACK h.mem (GET_HEADER h.brk) E BTAG_KEEP 0) (GET_FOOTER (PUT_PACK h.mem (GET_HEADER h.brk) E BTAG_KEEP 0) h.brk) E (GET_BTAG (PUT_PACK h.mem (GET_HEADER h.brk) E BTAG_KEEP 0) (GET_HEADER h.brk)) 0) h.brk)) 4 BTAG_FREE 1) h.brk)) }
        h.brk := by
  unfold extend_heap mem_sbrk
  rw [hE]
  simp only [if_neg h16, if_pos hcap]

/-- After a successful extension whose preceding block is allocated
(boundary tag of the old epilogue is `BTAG_ALLOC`), `extend_heap` returns
the old break and the break has grown by exactly the rounded size. -/
theorem extend_heap_prev_alloc (h : Heap) (E : Nat) (h8 : E % 8 = 0) (h16 : 16 ≤ E)
    (hE32 : E + 8 < 2 ^ 32) (hcap : h.brk + E ≤ h.maxHeap) (hbrk : 4 ≤ h.brk)
    (hA : GET_BTAG h.mem (GET_HEADER h.brk) = 2) :
    (extend_heap h (E / 4)).2 = h.brk ∧ (extend_heap h (E / 4)).1.brk = h.brk + E := by
  have hEcomp : (if (E / 4) % 2 = 1 then E / 4 + 1 else E / 4) * 4 = E := by
    rw [if_neg (by omega : ¬(E / 4) % 2 = 1)]
    omega
  rw [extend_heap_unfold h (E / 4) E hEcomp (by omega) hcap]
  simp only [GET_HEADER] at hA
  set m1 := PUT_PACK h.mem (GET_HEADER h.brk) E BTAG_KEEP 0 with hm1
  simp only [GET_HEADER] at hm1 ⊢
  have r1 : GET_WORD m1 (h.brk - 4) = E + 2 := by
    rw [hm1, PUT_PACK_keep, GET_WORD_PUT_WORD_self, hA]
    omega
  have rs1 : GET_SIZE m1 (h.brk - 4) = E := by
    unfold GET_SIZE
    rw [r1]
    omega
  have rb1 : GET_BTAG m1 (h.brk - 4) = 2 := by
    unfold GET_BTAG
    rw [r1]
    omega
  have footer1 : GET_FOOTER m1 h.brk = h.brk + E - 8 := by
    unfold GET_FOOTER
    simp only [GET_HEADER]
    rw [rs1]
  set m2 := PUT_PACK m1 (GET_FOOTER m1 h.brk) E (GET_BTAG m1 (h.brk - 4)) 0 with hm2
  have hm2e : m2 = PUT_WORD m1 (h.brk + E - 8) (E + 0 + 2) := by
    rw [hm2, footer1, rb1, PUT_PACK_explicit _ _ _ _ _ (by decide)]
  have r2 : GET_WORD m2 (h.brk - 4) = E + 2 := by
    rw [hm2e, GET_WORD_PUT_WORD_disj _ _ _ _ (by omega), r1]
  have rs2 : GET_SIZE m2 (h.brk - 4) = E := by
    unfold GET_SIZE
    rw [r2]
    omega
  have next2 : GET_NEXT_BLOCK m2 h.brk = h.brk + E := by
    unfold GET_NEXT_BLOCK
    simp only [GET_HEADER]
    rw [rs2]
  set m3 := PUT_PACK m2 (GET_NEXT_BLOCK m2 h.brk - 4) 4 BTAG_FREE 1 with hm3
  have hm3e : m3 = PUT_WORD m2 (h.brk + E - 4) 5 := by
    rw [hm3, next2, PUT_PACK_explicit _ _ _ _ _ (by decide)]
    norm_num [BTAG_FREE]
  have r3 : GET_WORD m3 (h.brk - 4) = E + 2 := by
    rw [hm3e, GET_WORD_PUT_WORD_disj _ _ _ _ (by omega), r2]
  have rs3 : GET_SIZE m3 (h.brk - 4) = E := by
    unfold GET_SIZE
    rw [r3]
    omega
  have next3 : GET_NEXT_BLOCK m3 h.brk = h.brk + E := by
    unfold GET_NEXT_BLOCK
    simp only [GET_HEADER]
    rw [rs3]
  have w3 : GET_WORD m3 (h.brk + E - 4) = 5 := by
    rw [hm3e, GET_WORD_PUT_WORD_self]
    decide
  set m4 := PUT_FREE_BTAG m3 (GET_NEXT_BLOCK m3 h.brk - 4) with hm4
  have hm4e : m4 = PUT_WORD m3 (h.brk + E - 4) 5 := by
    rw [hm4, next3, PUT_FREE_BTAG_eq_put, w3]
    norm_num
  have r4 : GET_WORD m4 (h.brk - 4) = E + 2 := by
    rw [hm4e, GET_WORD_PUT_WORD_disj _ _ _ _ (by omega), r3]
  have rs4 : GET_SIZE m4 (h.brk - 4) = E := by
    unfold GET_SIZE
    rw [r4]
    omega
  have rb4 : GET_BTAG m4 (h.brk - 4) = 2 := by
    unfold GET_BTAG
    rw [r4]
    omega
  have next4 : GET_NEXT_BLOCK m4 h.brk = h.brk + E := by
    unfold GET_NEXT_BLOCK
    simp only [GET_HEADER]
    rw [rs4]
  have w4 : GET_WORD m4 (h.brk + E - 4) = 5 := by
    rw [hm4e, GET_WORD_PUT_WORD_self]
    decide
  have alloc4 : GET_ALLOC m4 (GET_NEXT_BLOCK m4 h.brk - 4) = 1 := by
    unfold GET_ALLOC
    rw [next4, w4]
  rw [coalesce_case1 _ _ (by simp only [GET_HEADER]; exact rb4)
    (by simp only [GET_HEADER]; exact alloc4)]
  exact ⟨rfl, rfl⟩


theorem malloc_allocated_size_mod8 (size : Nat) : malloc_allocated_size size % 8 = 0 := by
  unfold malloc_allocated_size ALIGN
  split
  · decide
  · show ((4 + size + 7) % 2 ^ 64 - (4 + size + 7) % 2 ^ 64 % 8) % 8 = 0
    omega

/-- When the backing store cannot supply the rounded extension size,
`extend_heap` returns `NULL` and the state is completely unchanged. -/
theorem extend_heap_fail (h : Heap) (E : Nat) (h8 : E % 8 = 0) (h16 : 16 ≤ E)
    (hcap : h.maxHeap < h.brk + E) : extend_heap h (E / 4) = (h, 0) := by
  unfold extend_heap mem_sbrk
  rw [show (if (E / 4) % 2 = 1 then E / 4 + 1 else E / 4) * 4 = E from by
    rw [if_neg (by omega : ¬(E / 4) % 2 = 1)]; omega]
  simp only [if_neg (show ¬ E < 16 by omega), if_neg (show ¬ h.brk + E ≤ h.maxHeap by omega)]

/-! ## C1: successful allocations are aligned and within the heap -/

/-- The nodes visited by the `while (fp)` traversal of a free list. -/
def seglist_nodes (hb : Nat) (m : Mem) : Nat → Nat → List Nat
  | 0, _ => []
  | _ + 1, 0 => []
  | fuel + 1, fp => fp :: seglist_nodes hb m fuel (GET_NEXT_FREE hb m fp)

theorem seglist_find_go_spec (hb : Nat) (m : Mem) (size : Nat) :
    ∀ fuel fp, seglist_find_go hb m size fuel fp ≠ 0 →
      seglist_find_go hb m size fuel fp ∈ seglist_nodes hb m fuel fp ∧
      size ≤ GET_SIZE m (GET_HEADER (seglist_find_go hb m size fuel fp)) := by
  intro fuel
  induction fuel with
  | zero =>
    intro fp hne
    simp [seglist_find_go] at hne
  | succ n ih =>
    intro fp hne
    cases fp with
    | zero => simp [seglist_find_go] at hne
    | succ k =>
      by_cases hc : size ≤ GET_SIZE m (GET_HEADER (k + 1))
      · simp only [seglist_find_go, if_pos hc, seglist_nodes] at hne ⊢
        exact ⟨List.mem_cons_self _ _, hc⟩
      · simp only [seglist_find_go, if_neg hc, seglist_nodes] at hne ⊢
        obtain ⟨h1, h2⟩ := ih (GET_NEXT_FREE hb m (k + 1)) hne
        exact ⟨List.mem_cons_of_mem _ h1, h2⟩

theorem find_fit_go_spec (h : Heap) (size : Nat) :
    ∀ fuel index, find_fit_go h size fuel index ≠ 0 →
      ∃ i, index ≤ i ∧ i < 17 ∧ find_fit_go h size fuel index = seglist_find h i size ∧
        seglist_find h i size ≠ 0 := by
  intro fuel
  induction fuel with
  | zero =>
    intro index hne
    simp [find_fit_go] at hne
  | succ n ih =>
    intro index hne
    by_cases hlt : index < 17
    · by_cases hz : seglist_find h index size = 0
      · simp only [find_fit_go, if_pos hlt, hz, if_pos rfl] at hne ⊢
        obtain ⟨i, hi1, hi2, hi3, hi4⟩ := ih (index + 1) hne
        exact ⟨i, by omega, hi2, hi3, hi4⟩
      · simp only [find_fit_go, if_pos hlt, if_neg hz] at hne ⊢
        exact ⟨index, Nat.le_refl _, hlt, rfl, hz⟩
    · simp only [find_fit_go, if_neg hlt] at hne
      exact absurd rfl hne

/-- A pointer sitting in one of the free lists that is well-formed for the
purposes of C1: 8-byte aligned, past the prologue, with its block inside
the heap. -/
def goodNode (brk : Nat) (m : Mem) (bp : Nat) : Prop :=
  bp % 8 = 0 ∧ 4 ≤ bp ∧ bp + GET_SIZE m (GET_HEADER bp) ≤ brk + 4

/-- The facts needed about the block that precedes the epilogue when its
boundary tag is FREE: its footer at `brk - 8` and header agree, it is a
proper block, and its two free-list link words do not overlap the cells the
extension path reads. -/
def backOk (h : Heap) : Prop :=
  16 ≤ GET_SIZE h.mem (h.brk - 8) ∧
  GET_SIZE h.mem (h.brk - 8) + 16 ≤ h.brk ∧
  GET_SIZE h.mem (h.brk - GET_SIZE h.mem (h.brk - 8) - 4) = GET_SIZE h.mem (h.brk - 8) ∧
  (GET_PREV_FREE h.heap_begin h.mem (h.brk - GET_SIZE h.mem (h.brk - 8)) = 0 ∨
    GET_PREV_FREE h.heap_begin h.mem (h.brk - GET_SIZE h.mem (h.brk - 8)) + 4 ≤ h.brk - 8 ∨
    h.brk - 4 ≤ GET_PREV_FREE h.heap_begin h.mem (h.brk - GET_SIZE h.mem (h.brk - 8))) ∧
  (GET_NEXT_FREE h.heap_begin h.mem (h.brk - GET_SIZE h.mem (h.brk - 8)) = 0 ∨
    GET_NEXT_FREE h.heap_begin h.mem (h.brk - GET_SIZE h.mem (h.brk - 8)) + 8 ≤ h.brk - 8 ∨
    h.brk - 4 ≤ GET_NEXT_FREE h.heap_begin h.mem (h.brk - GET_SIZE h.mem (h.brk - 8)) + 4)

/-- The part of the heap invariant needed for C1. -/
def heapWF (h : Heap) : Prop :=
  h.brk % 8 = 0 ∧ 8 ≤ h.brk ∧
  (∀ i, i < 17 → ∀ fp ∈ seglist_nodes h.heap_begin h.mem (h.brk + 1) (h.seglist i),
    goodNode h.brk h.mem fp) ∧
  (GET_BTAG h.mem (GET_HEADER h.brk) = 2 ∨
    (GET_BTAG h.mem (GET_HEADER h.brk) = 0 ∧ backOk h))

theorem find_fit_good (h : Heap) (size : Nat)
    (hwf : ∀ i, i < 17 → ∀ fp ∈ seglist_nodes h.heap_begin h.mem (h.brk + 1) (h.seglist i),
      goodNode h.brk h.mem fp)
    (hne : find_fit h size ≠ 0) :
    goodNode h.brk h.mem (find_fit h size) ∧
    size ≤ GET_SIZE h.mem (GET_HEADER (find_fit h size)) := by
  obtain ⟨i, hi1, hi2, hi3, hi4⟩ := find_fit_go_spec h size 17 (seglist_get_index size) hne
  unfold find_fit
  rw [hi3]
  have hsf : seglist_find h i size =
      seglist_find_go h.heap_begin h.mem size (h.brk + 1) (h.seglist i) := by
    unfold seglist_find
    rw [if_neg (by omega : ¬ i = 2 ^ 64 - 1)]
  rw [hsf]
  rw [hsf] at hi4
  obtain ⟨hmem, hsz⟩ := seglist_find_go_spec h.heap_begin h.mem size (h.brk + 1)
    (h.seglist i) hi4
  exact ⟨hwf i hi2 _ hmem, hsz⟩


theorem GET_SIZE_congr (m m2 : Mem) (p : Nat) (hw : GET_WORD m2 p = GET_WORD m p) :
    GET_SIZE m2 p = GET_SIZE m p := by
  unfold GET_SIZE
  rw [hw]

theorem GET_ALLOC_congr (m m2 : Mem) (p : Nat) (hw : GET_WORD m2 p = GET_WORD m p) :
    GET_ALLOC m2 p = GET_ALLOC m p := by
  unfold GET_ALLOC
  rw [hw]

theorem GET_BTAG_congr (m m2 : Mem) (p : Nat) (hw : GET_WORD m2 p = GET_WORD m p) :
    GET_BTAG m2 p = GET_BTAG m p := by
  unfold GET_BTAG
  rw [hw]

theorem GET_NEXT_FREE_congr (hb : Nat) (m m2 : Mem) (p : Nat)
    (hw : GET_WORD m2 p = GET_WORD m p) :
    GET_NEXT_FREE hb m2 p = GET_NEXT_FREE hb m p := by
  unfold GET_NEXT_FREE
  rw [hw]

theorem GET_PREV_FREE_congr (hb : Nat) (m m2 : Mem) (p : Nat)
    (hw : GET_WORD m2 (p + 4) = GET_WORD m (p + 4)) :
    GET_PREV_FREE hb m2 p = GET_PREV_FREE hb m p := by
  unfold GET_PREV_FREE
  rw [hw]

/-- The two link-cell writes of `seglist_remove` leave any word cell that is
disjoint from both of them unchanged. -/
theorem seglist_remove_mem_frame (h : Heap) (fp s q : Nat)
    (hpf : GET_PREV_FREE h.heap_begin h.mem fp = 0 ∨
      GET_PREV_FREE h.heap_begin h.mem fp + 4 ≤ q ∨
      q + 4 ≤ GET_PREV_FREE h.heap_begin h.mem fp)
    (hnf : GET_NEXT_FREE h.heap_begin h.mem fp = 0 ∨
      GET_NEXT_FREE h.heap_begin h.mem fp + 8 ≤ q ∨
      q + 4 ≤ GET_NEXT_FREE h.heap_begin h.mem fp + 4) :
    GET_WORD (seglist_remove h fp s).mem q = GET_WORD h.mem q := by
  unfold seglist_remove SET_NEXT_FREE SET_PREV_FREE
  by_cases hp : GET_PREV_FREE h.heap_begin h.mem fp ≠ 0 <;>
    by_cases hn : GET_NEXT_FREE h.heap_begin h.mem fp ≠ 0
  · simp only [if_pos hp, if_pos hn]
    rw [GET_WORD_PUT_WORD_disj _ _ _ _ (by omega), GET_WORD_PUT_WORD_disj _ _ _ _ (by omega)]
  · simp only [if_pos hp, if_neg hn]
    rw [GET_WORD_PUT_WORD_disj _ _ _ _ (by omega)]
  · simp only [if_neg hp, if_pos hn]
    rw [GET_WORD_PUT_WORD_disj _ _ _ _ (by omega)]
  · simp only [if_neg hp, if_neg hn]

/-- The block pointer returned by `coalesce` in the previous-free /
next-allocated case. -/
theorem coalesce_case3_snd (h : Heap) (bp : Nat)
    (hprev : GET_BTAG h.mem (GET_HEADER bp) = 0)
    (hnext : GET_ALLOC h.mem (GET_HEADER (GET_NEXT_BLOCK h.mem bp)) = 1) :
    (coalesce h bp).2 =
      GET_PREV_BLOCK (seglist_remove h (GET_PREV_BLOCK h.mem bp)
        (GET_SIZE h.mem (GET_HEADER (GET_PREV_BLOCK h.mem bp)))).mem bp := by
  rw [coalesce_case3 h bp hprev hnext]


/-- After a successful extension whose preceding block is free (boundary tag
of the old epilogue is `BTAG_FREE`), `extend_heap` merges backwards: it
returns the preceding block's pointer `brk - P` (where `P` is the size
recorded in the footer at `brk - 8`), and the break grows by the rounded
size. -/
theorem extend_heap_prev_free (h : Heap) (E : Nat) (h8 : E % 8 = 0) (h16 : 16 ≤ E)
    (hE32 : E + 8 < 2 ^ 32) (hcap : h.brk + E ≤ h.maxHeap) (hbrk : 8 ≤ h.brk)
    (hA : GET_BTAG h.mem (GET_HEADER h.brk) = 0) (hback : backOk h) :
    (extend_heap h (E / 4)).2 = h.brk - GET_SIZE h.mem (h.brk - 8) ∧
    (extend_heap h (E / 4)).1.brk = h.brk + E := by
  obtain ⟨hP16, hPbrk, hPhdr, hpfc, hnfc⟩ := hback
  have hEcomp : (if (E / 4) % 2 = 1 then E / 4 + 1 else E / 4) * 4 = E := by
    rw [if_neg (by omega : ¬(E / 4) % 2 = 1)]
    omega
  rw [extend_heap_unfold h (E / 4) E hEcomp (by omega) hcap]
  simp only [GET_HEADER] at hA
  have hP8 : GET_SIZE h.mem (h.brk - 8) % 8 = 0 := GET_SIZE_mod_eight h.mem (h.brk - 8)
  set P := GET_SIZE h.mem (h.brk - 8) with hPdef
  set m1 := PUT_PACK h.mem (GET_HEADER h.brk) E BTAG_KEEP 0 with hm1
  simp only [GET_HEADER] at hm1 ⊢
  have r1 : GET_WORD m1 (h.brk - 4) = E := by
    rw [hm1, PUT_PACK_keep, GET_WORD_PUT_WORD_self, hA]
    omega
  have rs1 : GET_SIZE m1 (h.brk - 4) = E := by
    unfold GET_SIZE
    rw [r1]
    omega
  have rb1 : GET_BTAG m1 (h.brk - 4) = 0 := by
    unfold GET_BTAG
    rw [r1]
    omega
  have footer1 : GET_FOOTER m1 h.brk = h.brk + E - 8 := by
    unfold GET_FOOTER
    simp only [GET_HEADER]
    rw [rs1]
  set m2 := PUT_PACK m1 (GET_FOOTER m1 h.brk) E (GET_BTAG m1 (h.brk - 4)) 0 with hm2
  have hm2e : m2 = PUT_WORD m1 (h.brk + E - 8) (E + 0 + 0) := by
    rw [hm2, footer1, rb1, PUT_PACK_explicit _ _ _ _ _ (by decide)]
  have r2 : GET_WORD m2 (h.brk - 4) = E := by
    rw [hm2e, GET_WORD_PUT_WORD_disj _ _ _ _ (by omega), r1]
  have rs2 : GET_SIZE m2 (h.brk - 4) = E := by
    unfold GET_SIZE
    rw [r2]
    omega
  have next2 : GET_NEXT_BLOCK m2 h.brk = h.brk + E := by
    unfold GET_NEXT_BLOCK
    simp only [GET_HEADER]
    rw [rs2]
  set m3 := PUT_PACK m2 (GET_NEXT_BLOCK m2 h.brk - 4) 4 BTAG_FREE 1 with hm3
  have hm3e : m3 = PUT_WORD m2 (h.brk + E - 4) 5 := by
    rw [hm3, next2, PUT_PACK_explicit _ _ _ _ _ (by decide)]
    norm_num [BTAG_FREE]
  have r3 : GET_WORD m3 (h.brk - 4) = E := by
    rw [hm3e, GET_WORD_PUT_WORD_disj _ _ _ _ (by omega), r2]
  have rs3 : GET_SIZE m3 (h.brk - 4) = E := by
    unfold GET_SIZE
    rw [r3]
    omega
  have next3 : GET_NEXT_BLOCK m3 h.brk = h.brk + E := by
    unfold GET_NEXT_BLOCK
    simp only [GET_HEADER]
    rw [rs3]
  have w3 : GET_WORD m3 (h.brk + E - 4) = 5 := by
    rw [hm3e, GET_WORD_PUT_WORD_self]
    decide
  set m4 := PUT_FREE_BTAG m3 (GET_NEXT_BLOCK m3 h.brk - 4) with hm4
  have hm4e : m4 = PUT_WORD m3 (h.brk + E - 4) 5 := by
    rw [hm4, next3, PUT_FREE_BTAG_eq_put, w3]
    norm_num
  have r4 : GET_WORD m4 (h.brk - 4) = E := by
    rw [hm4e, GET_WORD_PUT_WORD_disj _ _ _ _ (by omega), r3]
  have rs4 : GET_SIZE m4 (h.brk - 4) = E := by
    unfold GET_SIZE
    rw [r4]
    omega
  have rb4 : GET_BTAG m4 (h.brk - 4) = 0 := by
    unfold GET_BTAG
    rw [r4]
    omega
  have next4 : GET_NEXT_BLOCK m4 h.brk = h.brk + E := by
    unfold GET_NEXT_BLOCK
    simp only [GET_HEADER]
    rw [rs4]
  have w4 : GET_WORD m4 (h.brk + E - 4) = 5 := by
    rw [hm4e, GET_WORD_PUT_WORD_self]
    decide
  have alloc4 : GET_ALLOC m4 (GET_NEXT_BLOCK m4 h.brk - 4) = 1 := by
    unfold GET_ALLOC
    rw [next4, w4]
  -- the footer at brk - 8 and the rest of the old heap tail are untouched
  have frame4 : ∀ q, q + 4 ≤ h.brk - 4 → GET_WORD m4 q = GET_WORD h.mem q := by
    intro q hq
    rw [hm4e, GET_WORD_PUT_WORD_disj _ _ _ _ (by omega), hm3e,
      GET_WORD_PUT_WORD_disj _ _ _ _ (by omega), hm2e,
      GET_WORD_PUT_WORD_disj _ _ _ _ (by omega), hm1, PUT_PACK_keep,
      GET_WORD_PUT_WORD_disj _ _ _ _ (by omega)]
  have f4 : GET_SIZE m4 (h.brk - 8) = P := by
    rw [hPdef, GET_SIZE_congr h.mem m4 _ (frame4 _ (by omega))]
  have prevblk4 : GET_PREV_BLOCK m4 h.brk = h.brk - P := by
    unfold GET_PREV_BLOCK
    rw [f4]
  have hdr4 : GET_SIZE m4 (h.brk - P - 4) = P := by
    rw [GET_SIZE_congr h.mem m4 _ (frame4 _ (by omega))]
    exact hPhdr
  -- now the coalesce, case 3
  have hprev : GET_BTAG (m4) (GET_HEADER h.brk) = 0 := by
    simp only [GET_HEADER]
    exact rb4
  have hnext : GET_ALLOC (m4) (GET_HEADER (GET_NEXT_BLOCK (m4) h.brk)) = 1 := by
    simp only [GET_HEADER]
    exact alloc4
  have hmemr : ({ h with brk := h.brk + E, mem := m4 } : Heap).mem = m4 := rfl
  have hhbr : ({ h with brk := h.brk + E, mem := m4 } : Heap).heap_begin = h.heap_begin := rfl
  constructor
  · have hco := coalesce_case3_snd { h with brk := h.brk + E, mem := m4 } h.brk hprev hnext
    rw [hmemr] at hco
    rw [prevblk4] at hco
    simp only [GET_HEADER] at hco
    rw [hdr4] at hco
    rw [hco]
    have hlpf : GET_PREV_FREE h.heap_begin m4 (h.brk - P) =
        GET_PREV_FREE h.heap_begin h.mem (h.brk - P) := by
      apply GET_PREV_FREE_congr
      apply frame4
      omega
    have hlnf : GET_NEXT_FREE h.heap_begin m4 (h.brk - P) =
        GET_NEXT_FREE h.heap_begin h.mem (h.brk - P) := by
      apply GET_NEXT_FREE_congr
      apply frame4
      omega
    have hfr : GET_WORD (seglist_remove { h with brk := h.brk + E, mem := m4 }
        (h.brk - P) P).mem (h.brk - 8) = GET_WORD m4 (h.brk - 8) := by
      apply seglist_remove_mem_frame
      · rw [hhbr, hmemr, hlpf]
        omega
      · rw [hhbr, hmemr, hlnf]
        omega
    unfold GET_PREV_BLOCK
    rw [GET_SIZE_congr m4 (seglist_remove { h with brk := h.brk + E, mem := m4 }
      (h.brk - P) P).mem (h.brk - 8) hfr, f4]
  · rw [coalesce_brk]


theorem malloc_allocated_size_ge (size : Nat) (h0 : 0 < size) (h64 : size + 12 ≤ 2 ^ 64) :
    4 + size ≤ malloc_allocated_size size ∧ 16 ≤ malloc_allocated_size size := by
  unfold malloc_allocated_size ALIGN
  split
  · omega
  · refine ⟨?_, ?_⟩ <;>
    · show _ ≤ (4 + size + 7) % 2 ^ 64 - (4 + size + 7) % 2 ^ 64 % 8
      have : (4 + size + 7) % 2 ^ 64 = 4 + size + 7 := Nat.mod_eq_of_lt (by omega)
      omega

/-- Core of C1 for `malloc`: in a well-formed heap a successful `malloc`
returns an 8-byte-aligned pointer whose `size`-byte span lies inside the
heap. -/
theorem malloc_good (h : Heap) (size : Nat) (hwf : heapWF h)
    (h0 : 0 < size) (h64 : size + 12 ≤ 2 ^ 64)
    (h32 : malloc_allocated_size size + 8 < 2 ^ 32) :
    ∀ h2 p, malloc h size = (h2, p) → p ≠ 0 → p % 8 = 0 ∧ p + size ≤ h2.brk := by
  obtain ⟨hbrk8, hbrkge, hnodes, hbt⟩ := hwf
  obtain ⟨hszge, hsz16⟩ := malloc_allocated_size_ge size h0 h64
  set A := malloc_allocated_size size with hA
  by_cases hf : find_fit h A = 0
  · -- miss: extension path
    have hEm : (if A > 4096 then A else 4096) = max A 4096 := by
      rcases Nat.le_total A 4096 with hle | hle
      · rcases Nat.eq_or_lt_of_le hle with heq | hlt
        · rw [heq]
          rw [if_neg (by omega), Nat.max_eq_right (by omega)]
        · rw [if_neg (by omega), Nat.max_eq_right (by omega)]
      · rcases Nat.eq_or_lt_of_le hle with heq | hlt
        · rw [← heq]
          rw [if_neg (by omega), Nat.max_eq_left (by omega)]
        · rw [if_pos (by omega), Nat.max_eq_left (by omega)]
    have hum : malloc h size =
        (match extend_heap h (max A 4096 / 4) with
         | (h1, 0) => (h1, 0)
         | (h1, bp1) => (place h1 bp1 A, bp1)) := by
      unfold malloc
      rw [if_neg (show ¬ size = 0 by omega)]
      simp only [← hA, hf, ne_eq, not_true_eq_false, ite_false, hEm]
    have hmax8 : max A 4096 % 8 = 0 := by
      have := malloc_allocated_size_mod8 size
      rw [← hA] at this
      rcases Nat.le_total A 4096 with hle | hle
      · rw [Nat.max_eq_right hle]
      · rw [Nat.max_eq_left hle]
        exact this
    have hmax16 : 16 ≤ max A 4096 := le_trans (by omega) (Nat.le_max_right A 4096)
    have hmax32 : max A 4096 + 8 < 2 ^ 32 := by
      rcases Nat.le_total A 4096 with hle | hle
      · rw [Nat.max_eq_right hle]
        norm_num
      · rw [Nat.max_eq_left hle]
        omega
    by_cases hcap : h.brk + max A 4096 ≤ h.maxHeap
    · have hval : (extend_heap h (max A 4096 / 4)).2 % 8 = 0 ∧
          0 < (extend_heap h (max A 4096 / 4)).2 ∧
          (extend_heap h (max A 4096 / 4)).2 + A ≤ h.brk + max A 4096 + 4 ∧
          (extend_heap h (max A 4096 / 4)).1.brk = h.brk + max A 4096 := by
        rcases hbt with hbtA | ⟨hbt0, hback⟩
        · obtain ⟨e2, ebrk⟩ := extend_heap_prev_alloc h (max A 4096) hmax8 hmax16 hmax32
            hcap (by omega) hbtA
          rw [e2, ebrk]
          refine ⟨hbrk8, by omega, by omega, rfl⟩
        · obtain ⟨e2, ebrk⟩ := extend_heap_prev_free h (max A 4096) hmax8 hmax16 hmax32
            hcap (by omega) hbt0 hback
          rw [e2, ebrk]
          obtain ⟨hP16, hPbrk, hrest⟩ := hback
          have hP8 := GET_SIZE_mod_eight h.mem (h.brk - 8)
          refine ⟨by omega, by omega, by omega, rfl⟩
      intro h2 p heq hp
      obtain ⟨hv8, hvpos, hvbound, hvbrk⟩ := hval
      obtain ⟨k, hk⟩ : ∃ k, extend_heap h (max A 4096 / 4) =
          ((extend_heap h (max A 4096 / 4)).1, k + 1) := by
        refine ⟨(extend_heap h (max A 4096 / 4)).2 - 1, ?_⟩
        rw [show extend_heap h (max A 4096 / 4) =
          ((extend_heap h (max A 4096 / 4)).1, (extend_heap h (max A 4096 / 4)).2) from rfl]
        congr 1
        omega
      rw [hum, hk] at heq
      have hp' : p = k + 1 := by
        have := congrArg Prod.snd heq
        simpa using this.symm
      have hh2 : h2 = place (extend_heap h (max A 4096 / 4)).1 (k + 1) A := by
        have := congrArg Prod.fst heq
        simpa using this.symm
      have hkval : k + 1 = (extend_heap h (max A 4096 / 4)).2 := by
        have := congrArg Prod.snd hk
        simpa using this.symm
      subst hp' hh2
      rw [place_brk, hvbrk, hkval]
      constructor
      · rw [hkval] at *
        exact hv8
      · omega
    · intro h2 p heq hp
      rw [hum, extend_heap_fail h (max A 4096) hmax8 hmax16 (by omega)] at heq
      have : p = 0 := by
        have := congrArg Prod.snd heq
        simpa using this.symm
      exact absurd this hp
  · -- hit path
    obtain ⟨⟨hal, hge4, hbound⟩, hfit⟩ := find_fit_good h A hnodes hf
    have huf : malloc h size = (place h (find_fit h A) A, find_fit h A) := by
      unfold malloc
      rw [if_neg (show ¬ size = 0 by omega)]
      simp only [← hA, ne_eq, hf, not_false_eq_true, ite_true]
    intro h2 p heq hp
    rw [huf] at heq
    have hp' : p = find_fit h A := by
      have := congrArg Prod.snd heq
      simpa using this.symm
    have hh2 : h2 = place h (find_fit h A) A := by
      have := congrArg Prod.fst heq
      simpa using this.symm
    subst hp' hh2
    rw [place_brk]
    exact ⟨hal, by omega⟩


/-- C1 (amended): from a well-formed heap, every successful allocation —
`malloc`, `realloc` or `calloc` returning non-null — whose internal size
computation does not wrap (`size + 12 ≤ 2^64`, respectively
`nmemb * size + 12 ≤ 2^64`, with the resulting block size below `2^32 - 8`)
returns an 8-byte-aligned pointer whose requested span `[p, p + size)` lies
within the heap's current extent `[0, brk)`.  The bounds are necessary: the
original claim quantifies over every successful allocation, and at
`malloc(2^64 - 4)` the `size_t` computation `ALIGN(WORD_SIZE + size)` wraps
to 0, `find_fit(0)` hits a free block and `malloc` returns a non-null
pointer whose span exceeds the heap (see `c1_counterexample`). -/
theorem c1_allocations_aligned_within_heap (h : Heap) (hwf : heapWF h) :
    (∀ size h2 p, 0 < size → size + 12 ≤ 2 ^ 64 →
      malloc_allocated_size size + 8 < 2 ^ 32 →
      malloc h size = (h2, p) → p ≠ 0 → p % 8 = 0 ∧ p + size ≤ h2.brk) ∧
    (∀ oldptr size h2 p, 0 < size → size + 12 ≤ 2 ^ 64 →
      malloc_allocated_size size + 8 < 2 ^ 32 →
      realloc h oldptr size = (h2, p) → p ≠ 0 → p % 8 = 0 ∧ p + size ≤ h2.brk) ∧
    (∀ nmemb size h2 p, nmemb * size + 12 ≤ 2 ^ 64 →
      malloc_allocated_size (nmemb * size) + 8 < 2 ^ 32 →
      calloc h nmemb size = (h2, p) → p ≠ 0 → p % 8 = 0 ∧ p + nmemb * size ≤ h2.brk) := by
  refine ⟨?_, ?_, ?_⟩
  · intro size h2 p h0 h64 h32 heq hp
    exact malloc_good h size hwf h0 h64 h32 h2 p heq hp
  · intro oldptr size h2 p h0 h64 h32 heq hp
    unfold realloc at heq
    rw [if_neg (show ¬ size = 0 by omega)] at heq
    by_cases ho : oldptr = 0
    · rw [if_pos ho] at heq
      exact malloc_good h size hwf h0 h64 h32 h2 p heq hp
    · rw [if_neg ho] at heq
      rcases hm : malloc h size with ⟨h1, np⟩
      rw [hm] at heq
      cases np with
      | zero =>
        have : p = 0 := by
          have := congrArg Prod.snd heq
          simpa using this.symm
        exact absurd this hp
      | succ n =>
        have hp' : p = n + 1 := by
          have := congrArg Prod.snd heq
          simpa using this.symm
        have hh2 : h2 = free { h1 with
            mem := memcpy h1.mem (n + 1) oldptr (realloc_copy_len h1.mem oldptr size) }
            oldptr := by
          have := congrArg Prod.fst heq
          simpa using this.symm
        obtain ⟨ha, hb⟩ := malloc_good h size hwf h0 h64 h32 h1 (n + 1) hm (by omega)
        subst hp' hh2
        rw [free_brk]
        exact ⟨ha, hb⟩
  · intro nmemb size h2 p h64 h32 heq hp
    have htot : size * nmemb % 2 ^ 64 = nmemb * size := by
      rw [Nat.mul_comm size nmemb]
      exact Nat.mod_eq_of_lt (by omega)
    have hcal : calloc h nmemb size =
        (match malloc h (nmemb * size) with
         | (h1, 0) => (h1, 0)
         | (h1, bp) => ({ h1 with mem := memset h1.mem bp 0 (nmemb * size) }, bp)) := by
      unfold calloc
      simp only [htot]
    rw [hcal] at heq
    rcases hm : malloc h (nmemb * size) with ⟨h1, np⟩
    rw [hm] at heq
    cases np with
    | zero =>
      have : p = 0 := by
        have := congrArg Prod.snd heq
        simpa using this.symm
      exact absurd this hp
    | succ n =>
      have hz : 0 < nmemb * size := by
        by_contra hzz
        have h00 : nmemb * size = 0 := by omega
        rw [h00] at hm
        have : malloc h 0 = (h, 0) := rfl
        rw [this] at hm
        have := congrArg Prod.snd hm
        simp at this
      have hp' : p = n + 1 := by
        have := congrArg Prod.snd heq
        simpa using this.symm
      have hh2 : h2 = { h1 with mem := memset h1.mem (n + 1) 0 (nmemb * size) } := by
        have := congrArg Prod.fst heq
        simpa using this.symm
      obtain ⟨ha, hb⟩ := malloc_good h (nmemb * size) hwf hz h64 h32 h1 (n + 1) hm (by omega)
      subst hp' hh2
      exact ⟨ha, hb⟩

instance heapWF_dec (h : Heap) : Decidable (heapWF h) := by
  unfold heapWF goodNode backOk
  infer_instance

theorem c1_allocations_aligned_within_heap_witness :
    (malloc hInit 16).2 % 8 = 0 ∧ (malloc hInit 16).2 + 16 ≤ (malloc hInit 16).1.brk :=
  (c1_allocations_aligned_within_heap hInit (by decide)).1 16 (malloc hInit 16).1
    (malloc hInit 16).2 (by decide) (by decide) (by decide) rfl (by decide)

/-- C1 counterexample: the original claim ("for every successful allocation
the span lies within the heap's extent") is false of the code.  At
`malloc(2^64 - 4)` the internal `size_t` computation wraps the block size to
0, `find_fit 0` returns the free block at 152, and `malloc` hands out the
non-null pointer 152 — but the requested span `[152, 152 + 2^64 - 4)` lies
far outside the heap, whose break is unchanged. -/
theorem c1_counterexample :
    (malloc hInit (2 ^ 64 - 4)).2 = 152 ∧ (152 : Nat) ≠ 0 ∧
    ¬ (152 + (2 ^ 64 - 4) ≤ (malloc hInit (2 ^ 64 - 4)).1.brk) :=
  ⟨by decide, by decide, by decide⟩


/-- C5: when no free block fits (`find_fit` misses), `malloc` asks the
backing store for exactly `max(allocated_size, CHUNK_SIZE)` bytes (already a
word multiple).  If the extension fails, `malloc` returns `NULL` and the
state — memory, headers, seglists, break — is exactly the state before the
call.  If it succeeds, the request is satisfied from the new region and the
break grows by exactly that amount; when the block preceding the old
epilogue is allocated (boundary tag `BTAG_ALLOC`) the returned pointer is
the old break, and when it is free (boundary tag `BTAG_FREE`, as right
after `mm_init`) the new region is first coalesced with that block and the
returned pointer is its start `brk - P`, `P` being the size in the footer
at `brk - 8`. -/
theorem c5_heap_extension_and_oom (h : Heap) (size : Nat) (hs : 0 < size)
    (hmiss : find_fit h (malloc_allocated_size size) = 0) :
    (h.maxHeap < h.brk + max (malloc_allocated_size size) 4096 → malloc h size = (h, 0)) ∧
    (h.brk + max (malloc_allocated_size size) 4096 ≤ h.maxHeap → 4 ≤ h.brk →
      malloc_allocated_size size + 8 < 2 ^ 32 →
      GET_BTAG h.mem (GET_HEADER h.brk) = 2 →
      (malloc h size).2 = h.brk ∧
      (malloc h size).1.brk = h.brk + max (malloc_allocated_size size) 4096) ∧
    (h.brk + max (malloc_allocated_size size) 4096 ≤ h.maxHeap → 8 ≤ h.brk →
      malloc_allocated_size size + 8 < 2 ^ 32 →
      GET_BTAG h.mem (GET_HEADER h.brk) = 0 → backOk h →
      (malloc h size).2 = h.brk - GET_SIZE h.mem (h.brk - 8) ∧
      (malloc h size).1.brk = h.brk + max (malloc_allocated_size size) 4096) := by
  have h8 : malloc_allocated_size size % 8 = 0 := malloc_allocated_size_mod8 size
  have hEm : (if malloc_allocated_size size > 4096 then malloc_allocated_size size else 4096) =
      max (malloc_allocated_size size) 4096 := by
    rcases Nat.le_total (malloc_allocated_size size) 4096 with hle | hle
    · rw [if_neg (by omega), Nat.max_eq_right hle]
    · rcases Nat.eq_or_lt_of_le hle with heq | hlt
      · rw [← heq]
        rw [if_neg (by omega), Nat.max_eq_left (by omega)]
      · rw [if_pos (by omega), Nat.max_eq_left (by omega)]
  have hmal : malloc h size =
      (match extend_heap h (max (malloc_allocated_size size) 4096 / 4) with
       | (h1, 0) => (h1, 0)
       | (h1, bp1) => (place h1 bp1 (malloc_allocated_size size), bp1)) := by
    unfold malloc
    rw [if_neg (show ¬ size = 0 by omega)]
    simp only [hmiss, ne_eq, not_true_eq_false, ite_false, hEm]
  refine ⟨?_, ?_, ?_⟩
  · intro hover
    rw [hmal, extend_heap_fail h _ (by omega) (by omega) hover]
  · intro hcap hbrk h32 hbt
    obtain ⟨e2, ebrk⟩ := extend_heap_prev_alloc h (max (malloc_allocated_size size) 4096)
      (by omega) (by omega) (by omega) hcap hbrk hbt
    rw [hmal]
    obtain ⟨k, hk⟩ : ∃ k, extend_heap h (max (malloc_allocated_size size) 4096 / 4) =
        ((extend_heap h (max (malloc_allocated_size size) 4096 / 4)).1, k + 1) := by
      refine ⟨h.brk - 1, ?_⟩
      rw [show (extend_heap h (max (malloc_allocated_size size) 4096 / 4)) =
        ((extend_heap h (max (malloc_allocated_size size) 4096 / 4)).1,
         (extend_heap h (max (malloc_allocated_size size) 4096 / 4)).2) from rfl, e2]
      congr 1
      omega
    rw [hk]
    refine ⟨?_, ?_⟩
    · show k + 1 = h.brk
      have : (extend_heap h (max (malloc_allocated_size size) 4096 / 4)).2 = k + 1 := by
        rw [hk]
      omega
    · show (place _ _ _).brk = _
      rw [place_brk]
      have : (extend_heap h (max (malloc_allocated_size size) 4096 / 4)).1.brk =
          h.brk + max (malloc_allocated_size size) 4096 := ebrk
      exact this
  · intro hcap hbrk h32 hbt hback
    obtain ⟨e2, ebrk⟩ := extend_heap_prev_free h (max (malloc_allocated_size size) 4096)
      (by omega) (by omega) (by omega) hcap hbrk hbt hback
    rw [hmal]
    obtain ⟨hP16, hPbrk, hrest⟩ := hback
    obtain ⟨k, hk⟩ : ∃ k, extend_heap h (max (malloc_allocated_size size) 4096 / 4) =
        ((extend_heap h (max (malloc_allocated_size size) 4096 / 4)).1, k + 1) := by
      refine ⟨h.brk - GET_SIZE h.mem (h.brk - 8) - 1, ?_⟩
      rw [show (extend_heap h (max (malloc_allocated_size size) 4096 / 4)) =
        ((extend_heap h (max (malloc_allocated_size size) 4096 / 4)).1,
         (extend_heap h (max (malloc_allocated_size size) 4096 / 4)).2) from rfl, e2]
      congr 1
      omega
    rw [hk]
    refine ⟨?_, ?_⟩
    · show k + 1 = h.brk - GET_SIZE h.mem (h.brk - 8)
      have hx : (extend_heap h (max (malloc_allocated_size size) 4096 / 4)).2 = k + 1 := by
        rw [hk]
      omega
    · show (place _ _ _).brk = _
      rw [place_brk]
      exact ebrk

instance backOk_dec (h : Heap) : Decidable (backOk h) := by
  unfold backOk
  infer_instance

/-- Witness: right after `mm_init` the epilogue's boundary tag is `BTAG_FREE`
(the block before it, at 152 with size 256, is free), `malloc 5000` is a
`find_fit` miss, and the prev-free success conjunct applies with every
hypothesis discharged; `malloc 200000` exceeds the backing store and the
failure conjunct applies. -/
theorem c5_heap_extension_and_oom_witness :
    ((malloc hInit 5000).2 = hInit.brk - GET_SIZE hInit.mem (hInit.brk - 8) ∧
      (malloc hInit 5000).1.brk = hInit.brk + max (malloc_allocated_size 5000) 4096) ∧
    malloc hInit 200000 = (hInit, 0) :=
  ⟨(c5_heap_extension_and_oom hInit 5000 (by decide) (by decide)).2.2 (by decide) (by decide)
      (by decide) (by decide) (by decide),
   (c5_heap_extension_and_oom hInit 200000 (by decide) (by decide)).1 (by decide)⟩

/-! ## C7: `place` splits exactly when the remainder reaches the minimum block size -/

theorem seglist_insert_mem_eq (h : Heap) (fp s : Nat) :
    (seglist_insert h fp s).mem =
      SET_PREV_FREE h.heap_begin
        (SET_NEXT_FREE h.heap_begin
          (if h.seglist (seglist_get_index s) ≠ 0 then
            SET_PREV_FREE h.heap_begin h.mem (h.seglist (seglist_get_index s)) fp
           else h.mem)
          fp (h.seglist (seglist_get_index s)))
        fp 0 := rfl

theorem seglist_insert_seglist_eq (h : Heap) (fp s : Nat) :
    (seglist_insert h fp s).seglist =
      fun i => if i = seglist_get_index s then fp else h.seglist i := rfl

theorem GET_WORD_SET_NEXT_FREE_disj (hb : Nat) (m : Mem) (bp v q : Nat)
    (h : q + 4 ≤ bp ∨ bp + 4 ≤ q) :
    GET_WORD (SET_NEXT_FREE hb m bp v) q = GET_WORD m q := by
  unfold SET_NEXT_FREE
  exact GET_WORD_PUT_WORD_disj _ _ _ _ h

theorem GET_WORD_SET_PREV_FREE_disj (hb : Nat) (m : Mem) (bp v q : Nat)
    (h : q + 4 ≤ bp + 4 ∨ bp + 8 ≤ q) :
    GET_WORD (SET_PREV_FREE hb m bp v) q = GET_WORD m q := by
  unfold SET_PREV_FREE
  exact GET_WORD_PUT_WORD_disj _ _ _ _ (by omega)

/-- `place` unfolded on the splitting branch. -/
theorem place_split_eq (h : Heap) (ptr A : Nat)
    (hsplit : (16 : Int) ≤ (GET_SIZE h.mem (GET_HEADER ptr) : Int) - (A : Int)) :
    place h ptr A =
      seglist_insert
        { seglist_remove h ptr (GET_SIZE h.mem (GET_HEADER ptr)) with
          mem := PUT_PACK
            (PUT_PACK
              (PUT_PACK (seglist_remove h ptr (GET_SIZE h.mem (GET_HEADER ptr))).mem
                (GET_HEADER ptr) A BTAG_KEEP 1)
              (GET_HEADER (GET_NEXT_BLOCK
                (PUT_PACK (seglist_remove h ptr (GET_SIZE h.mem (GET_HEADER ptr))).mem
                  (GET_HEADER ptr) A BTAG_KEEP 1) ptr))
              ((GET_SIZE h.mem (GET_HEADER ptr) : Int) - (A : Int)).toNat BTAG_ALLOC 0)
            (GET_FOOTER
              (PUT_PACK
                (PUT_PACK (seglist_remove h ptr (GET_SIZE h.mem (GET_HEADER ptr))).mem
                  (GET_HEADER ptr) A BTAG_KEEP 1)
                (GET_HEADER (GET_NEXT_BLOCK
                  (PUT_PACK (seglist_remove h ptr (GET_SIZE h.mem (GET_HEADER ptr))).mem
                    (GET_HEADER ptr) A BTAG_KEEP 1) ptr))
                ((GET_SIZE h.mem (GET_HEADER ptr) : Int) - (A : Int)).toNat BTAG_ALLOC 0)
              (GET_NEXT_BLOCK
                (PUT_PACK (seglist_remove h ptr (GET_SIZE h.mem (GET_HEADER ptr))).mem
                  (GET_HEADER ptr) A BTAG_KEEP 1) ptr))
            ((GET_SIZE h.mem (GET_HEADER ptr) : Int) - (A : Int)).toNat BTAG_ALLOC 0 }
        (GET_NEXT_BLOCK
          (PUT_PACK (seglist_remove h ptr (GET_SIZE h.mem (GET_HEADER ptr))).mem
            (GET_HEADER ptr) A BTAG_KEEP 1) ptr)
        ((GET_SIZE h.mem (GET_HEADER ptr) : Int) - (A : Int)).toNat := by
  unfold place
  rw [if_pos hsplit]

/-- `place` unfolded on the no-split branch. -/
theorem place_noSplit_eq (h : Heap) (ptr A : Nat)
    (hns : ¬ (16 : Int) ≤ (GET_SIZE h.mem (GET_HEADER ptr) : Int) - (A : Int)) :
    place h ptr A =
      { seglist_remove h ptr (GET_SIZE h.mem (GET_HEADER ptr)) with
        mem := PUT_ALLOC_BTAG
          (PUT_PACK (seglist_remove h ptr (GET_SIZE h.mem (GET_HEADER ptr))).mem
            (GET_HEADER ptr) (GET_SIZE h.mem (GET_HEADER ptr)) BTAG_KEEP 1)
          (GET_HEADER (GET_NEXT_BLOCK
            (PUT_PACK (seglist_remove h ptr (GET_SIZE h.mem (GET_HEADER ptr))).mem
              (GET_HEADER ptr) (GET_SIZE h.mem (GET_HEADER ptr)) BTAG_KEEP 1) ptr)) } := by
  unfold place
  rw [if_neg hns]


/-- Reads of cells disjoint from the (at most three) link-cell writes of
`seglist_insert` are unchanged. -/
theorem seglist_insert_mem_frame (h : Heap) (fp s q : Nat) (m : Mem) (ipt : Nat)
    (hm : h.mem = m) (hsl : h.seglist (seglist_get_index s) = ipt)
    (hq1 : q + 4 ≤ fp ∨ fp + 8 ≤ q)
    (hq2 : ipt = 0 ∨ q + 4 ≤ ipt + 4 ∨ ipt + 8 ≤ q) :
    GET_WORD (seglist_insert h fp s).mem q = GET_WORD m q := by
  rw [seglist_insert_mem_eq, hsl, hm]
  rw [GET_WORD_SET_PREV_FREE_disj _ _ _ _ _ (by omega),
    GET_WORD_SET_NEXT_FREE_disj _ _ _ _ _ (by omega)]
  rcases hq2 with hi | hi | hi
  · rw [if_neg (by omega)]
  · by_cases hz : ipt ≠ 0
    · rw [if_pos hz, GET_WORD_SET_PREV_FREE_disj _ _ _ _ _ (by omega)]
    · rw [if_neg hz]
  · by_cases hz : ipt ≠ 0
    · rw [if_pos hz, GET_WORD_SET_PREV_FREE_disj _ _ _ _ _ (by omega)]
    · rw [if_neg hz]

/-- After `seglist_insert`, the inserted block heads its class's list. -/
theorem seglist_insert_head (h : Heap) (fp s : Nat) :
    (seglist_insert h fp s).seglist (seglist_get_index s) = fp := by
  rw [seglist_insert_seglist_eq]
  simp

/-- C7: for a free block at `ptr` chosen for a request of `alloc_size`
(so that `alloc_size` fits), `place` splits when the remainder
`free_size - alloc_size` is at least `MIN_BLOCK_SIZE = 16`: the head becomes
an allocated block of exactly `alloc_size`, the tail a free block of the
remainder (boundary tag `BTAG_ALLOC`, matching footer at
`ptr + free_size - 8`) which now heads its size class's list.  Otherwise
`place` allocates the whole block: the header keeps `free_size` with the
alloc bit set and the next block's boundary tag is set to `BTAG_ALLOC`.
The hypothesis `hins` keeps the head of the class the split tail lands in
(read after the removal of `ptr` from its own class) clear of the block
being carved. -/
theorem c7_place_split (h : Heap) (ptr alloc_size : Nat)
    (hfree : GET_ALLOC h.mem (GET_HEADER ptr) = 0)
    (h16 : 16 ≤ alloc_size) (ha8 : alloc_size % 8 = 0)
    (hfit : alloc_size ≤ GET_SIZE h.mem (GET_HEADER ptr))
    (hptr : 16 ≤ ptr)
    (hins : (seglist_remove h ptr (GET_SIZE h.mem (GET_HEADER ptr))).seglist
        (seglist_get_index (GET_SIZE h.mem (GET_HEADER ptr) - alloc_size)) = 0 ∨
      (seglist_remove h ptr (GET_SIZE h.mem (GET_HEADER ptr))).seglist
        (seglist_get_index (GET_SIZE h.mem (GET_HEADER ptr) - alloc_size)) + 12 ≤ ptr ∨
      ptr + GET_SIZE h.mem (GET_HEADER ptr) ≤
        (seglist_remove h ptr (GET_SIZE h.mem (GET_HEADER ptr))).seglist
          (seglist_get_index (GET_SIZE h.mem (GET_HEADER ptr) - alloc_size))) :
    (16 ≤ GET_SIZE h.mem (GET_HEADER ptr) - alloc_size →
      GET_SIZE (place h ptr alloc_size).mem (GET_HEADER ptr) = alloc_size ∧
      GET_ALLOC (place h ptr alloc_size).mem (GET_HEADER ptr) = 1 ∧
      GET_SIZE (place h ptr alloc_size).mem (GET_HEADER (ptr + alloc_size)) =
        GET_SIZE h.mem (GET_HEADER ptr) - alloc_size ∧
      GET_ALLOC (place h ptr alloc_size).mem (GET_HEADER (ptr + alloc_size)) = 0 ∧
      GET_BTAG (place h ptr alloc_size).mem (GET_HEADER (ptr + alloc_size)) = 2 ∧
      GET_SIZE (place h ptr alloc_size).mem (ptr + GET_SIZE h.mem (GET_HEADER ptr) - 8) =
        GET_SIZE h.mem (GET_HEADER ptr) - alloc_size ∧
      GET_ALLOC (place h ptr alloc_size).mem (ptr + GET_SIZE h.mem (GET_HEADER ptr) - 8) = 0 ∧
      (place h ptr alloc_size).seglist
        (seglist_get_index (GET_SIZE h.mem (GET_HEADER ptr) - alloc_size)) =
        ptr + alloc_size) ∧
    (GET_SIZE h.mem (GET_HEADER ptr) - alloc_size < 16 →
      GET_SIZE (place h ptr alloc_size).mem (GET_HEADER ptr) =
        GET_SIZE h.mem (GET_HEADER ptr) ∧
      GET_ALLOC (place h ptr alloc_size).mem (GET_HEADER ptr) = 1 ∧
      GET_BTAG (place h ptr alloc_size).mem
        (GET_HEADER (ptr + GET_SIZE h.mem (GET_HEADER ptr))) = 2) := by
  have hFlt := GET_SIZE_lt h.mem (GET_HEADER ptr)
  have hF8 := GET_SIZE_mod_eight h.mem (GET_HEADER ptr)
  rw [show GET_HEADER ptr = ptr - 4 from rfl] at hFlt hF8 hfit hins ⊢
  constructor
  · -- split branch
    intro hsp
    rw [place_split_eq h ptr alloc_size (by rw [show GET_HEADER ptr = ptr - 4 from rfl]; omega)]
    simp only [GET_HEADER]
    rw [show ((GET_SIZE h.mem (ptr - 4) : Int) - (alloc_size : Int)).toNat =
      GET_SIZE h.mem (ptr - 4) - alloc_size from by omega]
    set F := GET_SIZE h.mem (ptr - 4) with hF
    set REM := seglist_remove h ptr F with hREM
    set M1 := PUT_PACK REM.mem (ptr - 4) alloc_size BTAG_KEEP 1 with hM1
    have hbcases := GET_BTAG_cases REM.mem (ptr - 4)
    have hw1 : GET_WORD M1 (ptr - 4) = alloc_size + 1 + GET_BTAG REM.mem (ptr - 4) := by
      rw [hM1, PUT_PACK_keep, GET_WORD_PUT_WORD_self]
      rcases hbcases with hb | hb <;> rw [hb] <;> exact Nat.mod_eq_of_lt (by omega)
    have hs1 : GET_SIZE M1 (ptr - 4) = alloc_size := by
      unfold GET_SIZE
      rw [hw1]
      rcases hbcases with hb | hb <;> rw [hb] <;> omega
    have hnb1 : GET_NEXT_BLOCK M1 ptr = ptr + alloc_size := by
      unfold GET_NEXT_BLOCK
      simp only [GET_HEADER]
      rw [hs1]
    rw [hnb1]
    set M2 := PUT_PACK M1 (ptr + alloc_size - 4) (F - alloc_size) BTAG_ALLOC 0 with hM2
    have hM2e : M2 = PUT_WORD M1 (ptr + alloc_size - 4) (F - alloc_size + 0 + 2) := by
      rw [hM2, PUT_PACK_explicit _ _ _ _ _ (by decide)]
      rfl
    have hw2h : GET_WORD M2 (ptr - 4) = alloc_size + 1 + GET_BTAG REM.mem (ptr - 4) := by
      rw [hM2e, GET_WORD_PUT_WORD_disj _ _ _ _ (by omega), hw1]
    have hw2t : GET_WORD M2 (ptr + alloc_size - 4) = F - alloc_size + 2 := by
      rw [hM2e, GET_WORD_PUT_WORD_self]
      omega
    have hs2t : GET_SIZE M2 (ptr + alloc_size - 4) = F - alloc_size := by
      unfold GET_SIZE
      rw [hw2t]
      omega
    have hftr2 : GET_FOOTER M2 (ptr + alloc_size) = ptr + F - 8 := by
      unfold GET_FOOTER
      simp only [GET_HEADER]
      rw [hs2t]
      omega
    rw [hftr2]
    set M3 := PUT_PACK M2 (ptr + F - 8) (F - alloc_size) BTAG_ALLOC 0 with hM3
    have hM3e : M3 = PUT_WORD M2 (ptr + F - 8) (F - alloc_size + 0 + 2) := by
      rw [hM3, PUT_PACK_explicit _ _ _ _ _ (by decide)]
      rfl
    have hw3h : GET_WORD M3 (ptr - 4) = alloc_size + 1 + GET_BTAG REM.mem (ptr - 4) := by
      rw [hM3e, GET_WORD_PUT_WORD_disj _ _ _ _ (by omega), hw2h]
    have hw3t : GET_WORD M3 (ptr + alloc_size - 4) = F - alloc_size + 2 := by
      rw [hM3e, GET_WORD_PUT_WORD_disj _ _ _ _ (by omega), hw2t]
    have hw3f : GET_WORD M3 (ptr + F - 8) = F - alloc_size + 2 := by
      rw [hM3e, GET_WORD_PUT_WORD_self]
      omega
    have hfr : ∀ q, (q + 4 ≤ ptr + alloc_size ∨ ptr + alloc_size + 8 ≤ q) →
        (q = ptr - 4 ∨ q = ptr + alloc_size - 4 ∨ q = ptr + F - 8) →
        GET_WORD (seglist_insert { REM with mem := M3 } (ptr + alloc_size)
          (F - alloc_size)).mem q = GET_WORD M3 q := by
      intro q hq1 hq2
      refine seglist_insert_mem_frame { REM with mem := M3 } (ptr + alloc_size)
        (F - alloc_size) q M3 (REM.seglist (seglist_get_index (F - alloc_size)))
        rfl rfl hq1 ?_
      rcases hins with hi | hi | hi
      · left
        exact hi
      · right
        right
        omega
      · right
        left
        omega
    refine ⟨?_, ?_, ?_, ?_, ?_, ?_, ?_, ?_⟩
    · unfold GET_SIZE
      rw [hfr (ptr - 4) (by omega) (by omega), hw3h]
      rcases hbcases with hb | hb <;> rw [hb] <;> omega
    · unfold GET_ALLOC
      rw [hfr (ptr - 4) (by omega) (by omega), hw3h]
      rcases hbcases with hb | hb <;> rw [hb] <;> omega
    · unfold GET_SIZE
      rw [hfr (ptr + alloc_size - 4) (by omega) (by omega), hw3t]
      omega
    · unfold GET_ALLOC
      rw [hfr (ptr + alloc_size - 4) (by omega) (by omega), hw3t]
      omega
    · unfold GET_BTAG
      rw [hfr (ptr + alloc_size - 4) (by omega) (by omega), hw3t]
      omega
    · unfold GET_SIZE
      rw [hfr (ptr + F - 8) (by omega) (by omega), hw3f]
      omega
    · unfold GET_ALLOC
      rw [hfr (ptr + F - 8) (by omega) (by omega), hw3f]
      omega
    · exact seglist_insert_head _ _ _
  · -- no-split branch
    intro hns
    rw [place_noSplit_eq h ptr alloc_size
      (by rw [show GET_HEADER ptr = ptr - 4 from rfl]; omega)]
    simp only [GET_HEADER]
    set F := GET_SIZE h.mem (ptr - 4) with hF
    set REM := seglist_remove h ptr F with hREM
    set M1 := PUT_PACK REM.mem (ptr - 4) F BTAG_KEEP 1 with hM1
    have hbcases := GET_BTAG_cases REM.mem (ptr - 4)
    have hw1 : GET_WORD M1 (ptr - 4) = F + 1 + GET_BTAG REM.mem (ptr - 4) := by
      rw [hM1, PUT_PACK_keep, GET_WORD_PUT_WORD_self]
      rcases hbcases with hb | hb <;> rw [hb] <;> exact Nat.mod_eq_of_lt (by omega)
    have hs1 : GET_SIZE M1 (ptr - 4) = F := by
      unfold GET_SIZE
      rw [hw1]
      rcases hbcases with hb | hb <;> rw [hb] <;> omega
    have hnb1 : GET_NEXT_BLOCK M1 ptr = ptr + F := by
      unfold GET_NEXT_BLOCK
      simp only [GET_HEADER]
      rw [hs1]
    rw [hnb1]
    refine ⟨?_, ?_, ?_⟩
    · show GET_SIZE (PUT_ALLOC_BTAG M1 (ptr + F - 4)) (ptr - 4) = F
      unfold GET_SIZE
      rw [PUT_ALLOC_BTAG_eq_put, GET_WORD_PUT_WORD_disj _ _ _ _ (by omega), hw1]
      rcases hbcases with hb | hb <;> rw [hb] <;> omega
    · show GET_ALLOC (PUT_ALLOC_BTAG M1 (ptr + F - 4)) (ptr - 4) = 1
      unfold GET_ALLOC
      rw [PUT_ALLOC_BTAG_eq_put, GET_WORD_PUT_WORD_disj _ _ _ _ (by omega), hw1]
      rcases hbcases with hb | hb <;> rw [hb] <;> omega
    · show GET_BTAG (PUT_ALLOC_BTAG M1 (ptr + F - 4)) (ptr + F - 4) = 2
      exact GET_BTAG_PUT_ALLOC_BTAG_self M1 (ptr + F - 4)


theorem c7_place_split_witness :
    (16 ≤ GET_SIZE hInit.mem (GET_HEADER 152) - 24 →
      GET_SIZE (place hInit 152 24).mem (GET_HEADER 152) = 24 ∧
      GET_ALLOC (place hInit 152 24).mem (GET_HEADER 152) = 1 ∧
      GET_SIZE (place hInit 152 24).mem (GET_HEADER (152 + 24)) =
        GET_SIZE hInit.mem (GET_HEADER 152) - 24 ∧
      GET_ALLOC (place hInit 152 24).mem (GET_HEADER (152 + 24)) = 0 ∧
      GET_BTAG (place hInit 152 24).mem (GET_HEADER (152 + 24)) = 2 ∧
      GET_SIZE (place hInit 152 24).mem (152 + GET_SIZE hInit.mem (GET_HEADER 152) - 8) =
        GET_SIZE hInit.mem (GET_HEADER 152) - 24 ∧
      GET_ALLOC (place hInit 152 24).mem (152 + GET_SIZE hInit.mem (GET_HEADER 152) - 8) = 0 ∧
      (place hInit 152 24).seglist
        (seglist_get_index (GET_SIZE hInit.mem (GET_HEADER 152) - 24)) = 152 + 24) ∧
    (GET_SIZE hInit.mem (GET_HEADER 152) - 24 < 16 →
      GET_SIZE (place hInit 152 24).mem (GET_HEADER 152) = GET_SIZE hInit.mem (GET_HEADER 152) ∧
      GET_ALLOC (place hInit 152 24).mem (GET_HEADER 152) = 1 ∧
      GET_BTAG (place hInit 152 24).mem
        (GET_HEADER (152 + GET_SIZE hInit.mem (GET_HEADER 152))) = 2) :=
  c7_place_split hInit 152 24 (by decide) (by decide) (by decide) (by decide) (by decide)
    (by decide)

end MM
